import Mathlib

/-!
Shallow embedding of the OPTIMA output-validation pipeline
(`src/lib/promptBuilder.ts`) and the line-diff engine (`codeDiff.ts`),
with theorems settling the frozen claims about them.

Strings are modelled as Lean `String` / `List Char`; JavaScript numbers
appearing in exact integer positions are modelled as `Nat`/`Int`, and the
single fractional quantity (`confidence_score`, ratios, `Math.round`
arguments) as `ℚ` with `Math.round x = ⌊x + 1/2⌋`.  Loops are modelled by
structural recursion (with an explicit fuel argument where the JS loop is
not structurally decreasing; the fuel supplied is always an upper bound on
the number of iterations the JS loop performs, so the semantics agree).
-/

namespace Optima

/-- The backtick character (U+0060). -/
def backtick : Char := Char.ofNat 96

/-- The single-quote character (U+0027). -/
def squote : Char := Char.ofNat 39

/-- The backslash character (U+005C). -/
def bslash : Char := Char.ofNat 92

/-- JavaScript `\s` on the ASCII range: space, tab, LF, CR, VT, FF
(the Unicode space characters JS also accepts are not used by this repo). -/
def jsWs (c : Char) : Bool :=
  c == ' ' || c == '\t' || c == '\n' || c == '\r' || c == Char.ofNat 11 || c == Char.ofNat 12

/-- Drop leading JS whitespace (the left half of `String.prototype.trim`). -/
def trimStartL (l : List Char) : List Char := l.dropWhile jsWs

/-- Drop trailing JS whitespace (`String.prototype.trimEnd`). -/
def trimEndL (l : List Char) : List Char := (l.reverse.dropWhile jsWs).reverse

/-- JavaScript `s.trim()`. -/
def jsTrim (s : String) : String := ⟨trimEndL (trimStartL s.data)⟩

/-- JavaScript `s.trimEnd()`. -/
def jsTrimEnd (s : String) : String := ⟨trimEndL s.data⟩

/-- Split a character list at newline characters; JavaScript
`s.split('\n')` (always at least one piece, empty pieces kept). -/
def splitNlL : List Char → List (List Char)
  | [] => [[]]
  | c :: rest =>
    if c == '\n' then [] :: splitNlL rest
    else
      match splitNlL rest with
      | [] => [[c]]
      | piece :: pieces => (c :: piece) :: pieces

/-- JavaScript `s.split('\n')`. -/
def splitLines (s : String) : List String := (splitNlL s.data).map String.mk

/-- JavaScript `lines.join('\n')`. -/
def joinNl (ls : List String) : String := String.intercalate "\n" ls

/-- `(a ++ b).data` unfolds to `a.data ++ b.data`. -/
theorem data_append (a b : String) : (a ++ b).data = a.data ++ b.data := by
  cases a; cases b; rfl

end Optima

namespace Optima

/-! ### Line-diff engine (`codeDiff.ts`) -/

/-- Diff entry kind (`DiffType` in `codeDiff.ts`). -/
inductive DiffType where
  | added
  | removed
  | unchanged
deriving DecidableEq, Repr

/-- One line of the edit script (`DiffLine` in `codeDiff.ts`). -/
structure DiffLine where
  type : DiffType
  content : String
  originalLineNo : Option Nat
  newLineNo : Option Nat
deriving DecidableEq, Repr

/-- Aggregate statistics (`DiffStats` in `codeDiff.ts`).  `changePercent`
is an integer (`Math.round` result). -/
structure DiffStats where
  added : Nat
  removed : Nat
  unchanged : Nat
  changePercent : Nat
deriving DecidableEq, Repr

/-- JavaScript `Math.round` on an exact rational: `⌊x + 1/2⌋`. -/
def jsRound (q : ℚ) : Int := ⌊q + 1/2⌋

/-- JavaScript `Math.round (p / q)` for natural `p`, `q` with `0 < q`,
computed exactly in integer arithmetic: `⌊p/q + 1/2⌋ = (2p + q) / (2q)`. -/
def natRound (p q : Nat) : Nat := (2 * p + q) / (2 * q)

/-- One inner step of the LCS dynamic-programming row computation: given the
remaining part of row `i-1` (starting at column `j-1`), the value just
computed to the left, and the remaining lines of `b`, produce row `i` from
column `j` on.  Mirrors the inner `for (let j = 1; ...)` loop of `lcs`. -/
def lcsRowAux (ai : String) : List String → Nat → List Nat → List Nat
  | [], _, _ => []
  | bj :: bs, left, prev =>
    let diag := prev.headD 0
    let up := prev.tail.headD 0
    let cur := if ai = bj then diag + 1 else max up (left)
    cur :: lcsRowAux ai bs cur prev.tail

/-- Row `i` of the `(m+1)×(n+1)` LCS table `dp` built by `lcs` in
`codeDiff.ts` (row `0` is all zeros). -/
def lcsRow (a b : List String) : Nat → List Nat
  | 0 => List.replicate (b.length + 1) 0
  | i + 1 => 0 :: lcsRowAux (a.getD i "") b 0 (lcsRow a b i)

/-- Table lookup `dp[i][j]` of `lcs(a, b)`. -/
def lcsVal (a b : List String) (i j : Nat) : Nat := (lcsRow a b i).getD j 0

/-- An entry of the `ops` array of `diffLinesIterative`: the pair `{i, j}`
pushed by the iterative backtrack, where `-1` is the removal/addition
marker used by the source. -/
structure DiffOp where
  oi : Int
  oj : Int
deriving DecidableEq, Repr

/-- The backtrack `while (i > 0 || j > 0)` loop of `diffLinesIterative`,
producing the `ops` array in push order.  `fuel` bounds the iteration
count; the caller passes `i + j`, which the loop never exceeds since every
iteration decrements `i` or `j`. -/
def genOpsAux (a b : List String) : Nat → Nat → Nat → List DiffOp
  | 0, _, _ => []
  | _ + 1, 0, 0 => []
  | fuel + 1, 0, j + 1 => ⟨0, (j : Int) + 1⟩ :: genOpsAux a b fuel 0 j
  | fuel + 1, i + 1, 0 => ⟨(i : Int) + 1, 0⟩ :: genOpsAux a b fuel i 0
  | fuel + 1, i + 1, j + 1 =>
    if a.getD i "" = b.getD j "" then
      ⟨(i : Int) + 1, (j : Int) + 1⟩ :: genOpsAux a b fuel i j
    else if lcsVal a b i (j + 1) ≥ lcsVal a b (i + 1) j then
      ⟨(i : Int) + 1, -1⟩ :: genOpsAux a b fuel i (j + 1)
    else
      ⟨-1, (j : Int) + 1⟩ :: genOpsAux a b fuel (i + 1) j

/-- The emission `for (const op of ops)` loop of `diffLinesIterative`,
with the two 1-based line counters threaded through. -/
def emitOps (a b : List String) : List DiffOp → Nat → Nat → List DiffLine
  | [], _, _ => []
  | op :: rest, origN, newN =>
    if op.oi == 0 && op.oj > 0 then
      ⟨.added, b.getD (op.oj.toNat - 1) "", none, some newN⟩ :: emitOps a b rest origN (newN + 1)
    else if op.oj == 0 && op.oi > 0 then
      ⟨.removed, a.getD (op.oi.toNat - 1) "", some origN, none⟩ :: emitOps a b rest (origN + 1) newN
    else if op.oj == -1 then
      ⟨.removed, a.getD (op.oi.toNat - 1) "", some origN, none⟩ :: emitOps a b rest (origN + 1) newN
    else if op.oi == -1 then
      ⟨.added, b.getD (op.oj.toNat - 1) "", none, some newN⟩ :: emitOps a b rest origN (newN + 1)
    else
      ⟨.unchanged, a.getD (op.oi.toNat - 1) "", some origN, some newN⟩ :: emitOps a b rest (origN + 1) (newN + 1)

/-- `diffLinesIterative` of `codeDiff.ts`: truncate both sides to 300
lines, backtrack over the LCS table iteratively, emit the edit script, and
append a synthetic `unchanged` entry when either side was truncated. -/
def diffLinesIterative (original optimized : List String) : List DiffLine :=
  let a := original.take 300
  let b := optimized.take 300
  let result := emitOps a b ((genOpsAux a b (a.length + b.length) a.length b.length).reverse) 1 1
  if 300 < original.length ∨ 300 < optimized.length then
    result ++ [⟨.unchanged,
      "... (" ++ toString (max original.length optimized.length - 300) ++ " more lines not shown in diff)",
      none, none⟩]
  else
    result

/-- `computeDiff` of `codeDiff.ts`. -/
def computeDiff (original optimized : String) : List DiffLine :=
  diffLinesIterative (splitLines original) (splitLines optimized)

/-- `computeDiffStats` of `codeDiff.ts`. -/
def computeDiffStats (diff : List DiffLine) : DiffStats :=
  let added := (diff.filter (fun d => d.type == .added)).length
  let removed := (diff.filter (fun d => d.type == .removed)).length
  let unchanged := (diff.filter (fun d => d.type == .unchanged)).length
  let total := added + removed + unchanged
  let changePercent := if 0 < total then natRound ((added + removed) * 100) total else 0
  ⟨added, removed, unchanged, changePercent⟩

end Optima

namespace Optima

/-! ### Bracket/brace balance repair (`repairTruncatedCode`) -/

/-- State of the left-to-right scan of `repairTruncatedCode`: the
string-literal state machine (`inString`, `stringChar`), the previous
character (`code[i-1]`, used for the escaped-quote test), and the stack of
expected closing brackets.  The stack is kept head-first (head = top of
the JS array). -/
structure ScanSt where
  inString : Bool
  stringChar : Char
  prev : Option Char
  stack : List Char
deriving DecidableEq, Repr

/-- `openers[ch]` of `repairTruncatedCode`. -/
def openerCloser (c : Char) : Option Char :=
  if c == '{' then some '}'
  else if c == '(' then some ')'
  else if c == '[' then some ']'
  else none

/-- `closers.has(ch)` of `repairTruncatedCode`. -/
def isCloser (c : Char) : Bool := c == '}' || c == ')' || c == ']'

/-- Quote characters recognised by the scanner: `"`, `'`, and backtick. -/
def isQuote (c : Char) : Bool := c == '"' || c == squote || c == backtick

/-- One iteration of the `for` loop of `repairTruncatedCode`. -/
def scanStep (st : ScanSt) (ch : Char) : ScanSt :=
  let st' :=
    if !st.inString && isQuote ch then
      { st with inString := true, stringChar := ch }
    else if st.inString && ch == st.stringChar && st.prev != some bslash then
      { st with inString := false }
    else if !st.inString then
      match openerCloser ch with
      | some cl => { st with stack := cl :: st.stack }
      | none =>
        match st.stack with
        | top :: rest => if isCloser ch && top == ch then { st with stack := rest } else st
        | [] => st
    else st
  { st' with prev := some ch }

/-- Run the scanner over a character list. -/
def scanList (l : List Char) (st : ScanSt) : ScanSt := l.foldl scanStep st

/-- The full scan of `repairTruncatedCode` over a code string, from the
initial state (outside any literal, empty stack). -/
def scanCode (s : String) : ScanSt := scanList s.data ⟨false, ' ', none, []⟩

/-- Result record of `repairTruncatedCode`. -/
structure RepairResult where
  repaired : String
  wasRepaired : Bool
deriving DecidableEq, Repr

/-- `repairTruncatedCode` of `promptBuilder.ts`.  When the scan leaves
expected closers on the stack they are appended in LIFO order, one per
line (`stack.reverse().join('\n')`; with the head-first stack
representation that is `intersperse '\n'`). -/
def repairTruncatedCode (code : String) : RepairResult :=
  let st := scanCode code
  if st.stack.isEmpty then ⟨code, false⟩
  else ⟨jsTrimEnd code ++ "\n" ++ ⟨st.stack.intersperse '\n'⟩, true⟩

/-! ### Truncation detection (`isCodeTruncated`) -/

/-- Boolean suffix test on character lists. -/
def endsWithL (l suffix : List Char) : Bool := suffix.reverse.isPrefixOf l.reverse

/-- Keywords of the dangling-block regex `\b(if|for|while|function|class|def|struct)\s*$`. -/
def truncKeywords : List (List Char) :=
  ["if".data, "for".data, "while".data, "function".data, "class".data, "def".data, "struct".data]

/-- A character counting as `\w` for the word-boundary `\b`. -/
def isWordChar (c : Char) : Bool :=
  ('a' ≤ c && c ≤ 'z') || ('A' ≤ c && c ≤ 'Z') || ('0' ≤ c && c ≤ '9') || c == '_'

/-- Does `/\b(if|for|while|function|class|def|struct)\s*$/` match `t`?
Since `t` is already right-trimmed, `\s*$` matches the empty string, so the
keyword must be a suffix preceded by a non-word character (or the start). -/
def keywordDangling (t : List Char) : Bool :=
  truncKeywords.any fun kw =>
    endsWithL t kw &&
      (t.length == kw.length ||
        !(isWordChar (t.getD (t.length - kw.length - 1) ' ')))

/-- Does `/[{(\[]\s*$/` match the right-trimmed `t`? -/
def openerDangling (t : List Char) : Bool :=
  t.getLastD ' ' == '{' || t.getLastD ' ' == '(' || t.getLastD ' ' == '['

/-- `isCodeTruncated` of `promptBuilder.ts`. -/
def isCodeTruncated (code : String) : Bool :=
  let t := (jsTrimEnd code).data
  endsWithL t "...".data || endsWithL t "..".data || endsWithL t "->".data ||
    keywordDangling t || openerDangling t

/-! ### Whitespace normalisation and meaningful-line counting -/

/-- `normalizeCode` of `promptBuilder.ts`: right-trim every line, rejoin,
trim the whole. -/
def normalizeCode (code : String) : String :=
  jsTrim (joinNl ((splitLines code).map jsTrimEnd))

/-- The meaningful-line predicate of `countMeaningfulLines` in
`normalizeLLMOutput`: non-blank, not starting with `//`, `#` or `*`, and
not a lone brace. -/
def isMeaningfulLine (l : String) : Bool :=
  let t := jsTrim l
  0 < t.data.length &&
    !("//".data.isPrefixOf t.data) &&
    !("#".data.isPrefixOf t.data) &&
    !("*".data.isPrefixOf t.data) &&
    t.data ≠ ['{'] && t.data ≠ ['}']

/-- `countMeaningfulLines` of `normalizeLLMOutput` (step 3). -/
def countMeaningfulLines (code : String) : Nat :=
  ((splitLines code).filter isMeaningfulLine).length

/-! ### Similarity score (`calculateCodeSimilarity`) -/

/-- Substring containment, JavaScript `hay.includes(pat)`. -/
def containsSub : List Char → List Char → Bool
  | [], pat => pat.isEmpty
  | c :: t, pat => pat.isPrefixOf (c :: t) || containsSub t pat

/-- The positional line-match predicate of `calculateCodeSimilarity`:
equal after trimming, or both longer than 10 characters and the first 10
characters of either side occur inside the other. -/
def lineMatches (o0 p0 : String) : Bool :=
  let o := (jsTrim o0).data
  let p := (jsTrim p0).data
  o == p ||
    (decide (10 < o.length) && decide (10 < p.length) &&
      (containsSub o (p.take 10) || containsSub p (o.take 10)))

/-- `calculateCodeSimilarity` of `promptBuilder.ts`.  The score
`round((matches / longerLen) × (shorterLen / longerLen) × 100)` is computed
exactly as `round(matches × shorterLen × 100 / longerLen²)` in integer
arithmetic. -/
def calculateCodeSimilarity (original optimized : String) : Nat :=
  let origLines := (splitLines (jsTrim original)).filter (fun l => !(jsTrim l).data.isEmpty)
  let optLines := (splitLines (jsTrim optimized)).filter (fun l => !(jsTrim l).data.isEmpty)
  if origLines.length == 0 || optLines.length == 0 then 0
  else
    let matching := ((origLines.zip optLines).filter (fun op => lineMatches op.1 op.2)).length
    let minLength := min origLines.length optLines.length
    let maxLength := max origLines.length optLines.length
    natRound (matching * minLength * 100) (maxLength * maxLength)

end Optima

namespace Optima

/-! ### Code extraction from raw LLM output (`extractCode`)

Each regular expression of `extractCode` is embedded as a character-level
matcher with the exact backtracking behaviour of the JavaScript engine on
that pattern (greedy classes whose shrinking cannot help are taken
maximal; the notes on each definition record the reasoning). -/

/-- ASCII lower-case letter (`[a-z]`). -/
def isAsciiLower (c : Char) : Bool := 'a' ≤ c && c ≤ 'z'

/-- ASCII upper-case letter (`[A-Z]`). -/
def isAsciiUpper (c : Char) : Bool := 'A' ≤ c && c ≤ 'Z'

/-- The word tokens of the preamble-stripping pattern
`^(?:here\s+is|below\s+is|the\s+optimized|optimized\s+(?:code|version)|output|result|answer|fixed|improved)`,
flattened in the order the engine tries the alternatives (each alternative
is a sequence of words separated by `\s+`). -/
def preambleAlts : List (List (List Char)) :=
  [["here".data, "is".data], ["below".data, "is".data], ["the".data, "optimized".data],
   ["optimized".data, "code".data], ["optimized".data, "version".data],
   ["output".data], ["result".data], ["answer".data], ["fixed".data], ["improved".data]]

/-- Case-insensitive literal prefix match (the `i` flag); returns the
remainder on success.  The pattern `pat` is given lower-case. -/
def matchCIPrefix : List Char → List Char → Option (List Char)
  | [], rest => some rest
  | _ :: _, [] => none
  | c :: cs, r :: rs => if r.toLower == c then matchCIPrefix cs rs else none

/-- Match `\s+` (one or more whitespace characters, taken greedily);
returns the remainder on success. -/
def matchWs1 (l : List Char) : Option (List Char) :=
  match l with
  | c :: _ => if jsWs c then some (l.dropWhile jsWs) else none
  | [] => none

/-- Match one alternative of the preamble pattern (words joined by `\s+`). -/
def matchAlt : List (List Char) → List Char → Option (List Char)
  | [], l => some l
  | w :: ws, l =>
    match matchCIPrefix w l with
    | none => none
    | some r =>
      match ws with
      | [] => some r
      | _ :: _ =>
        match matchWs1 r with
        | none => none
        | some r' => matchAlt ws r'

/-- The suffix of `l` strictly after its last newline (equals `l` when it
has none). -/
def afterLastNl (l : List Char) : List Char := (l.reverse.takeWhile (fun c => c ≠ '\n')).reverse

/-- Continuation `:\s*\n` of the preamble pattern, applied to the text
after a candidate colon: the greedy `\s*` followed by a mandatory `\n`
consumes the maximal whitespace run up to and including its last newline
(failing when the run has none). -/
def contAfterColon (after : List Char) : Option (List Char) :=
  let run := after.takeWhile jsWs
  if run.contains '\n' then some (afterLastNl run ++ after.dropWhile jsWs)
  else none

/-- Try the candidate colon positions for `[^\n]*:` (largest first, as the
greedy `[^\n]*` prefers), combined with `contAfterColon`. -/
def tryColonsDesc (rem : List Char) : List Nat → Option (List Char)
  | [] => none
  | p :: ps =>
    match contAfterColon (rem.drop (p + 1)) with
    | some r => some r
    | none => tryColonsDesc rem ps

/-- Colon positions inside the first line of `rem`, in descending order. -/
def colonCandidates (rem : List Char) : List Nat :=
  ((rem.takeWhile (fun c => c ≠ '\n')).enum.filterMap
    (fun ic => if ic.2 = ':' then some ic.1 else none)).reverse

/-- One alternative plus the continuation `[^\n]*:\s*\n`. -/
def tryAlt (alt : List (List Char)) (l : List Char) : Option (List Char) :=
  match matchAlt alt l with
  | none => none
  | some rem => tryColonsDesc rem (colonCandidates rem)

/-- All alternatives in order (the engine backtracks into the next
alternative when the continuation fails). -/
def tryAlts : List (List (List Char)) → List Char → Option (List Char)
  | [], _ => none
  | alt :: rest, l =>
    match tryAlt alt l with
    | some r => some r
    | none => tryAlts rest l

/-- The `text.replace(/^(?:here\s+is|...)[^\n]*:\s*\n/i, '')` step of
`extractCode` (anchored, first match only). -/
def stripPreambleL (l : List Char) : List Char :=
  match tryAlts preambleAlts l with
  | some r => r
  | none => l

/-- Match of `` ```[\w]*\s*\n `` at the head of `l`: the three backticks, a
maximal run of word characters, then `\s*\n`, which consumes the maximal
whitespace run up to and including its last newline.  Returns the
remainder (start of the fence interior). -/
def fenceHead (l : List Char) : Option (List Char) :=
  if "```".data.isPrefixOf l then
    let r := l.drop 3
    let r2 := r.dropWhile isWordChar
    let run := r2.takeWhile jsWs
    if run.contains '\n' then some (afterLastNl run ++ r2.dropWhile jsWs)
    else none
  else none

/-- Characters of `l` before its first occurrence of ```` ``` ```` (the
lazy `([\s\S]*?)` bounded by the closing fence); `none` when `l` has no
occurrence.  `fuel` bounds the scan (callers pass `l.length + 1`). -/
def beforeTriple (fuel : Nat) (l : List Char) : Option (List Char) :=
  match fuel with
  | 0 => none
  | fuel + 1 =>
    if "```".data.isPrefixOf l then some []
    else
      match l with
      | [] => none
      | c :: rest => (beforeTriple fuel rest).map (c :: ·)

/-- Leftmost match of the unanchored `` /```[\w]*\s*\n([\s\S]*?)```/ ``
(strategy 1), returning the captured interior. -/
def fencedComplete (fuel : Nat) (l : List Char) : Option (List Char) :=
  match fuel with
  | 0 => none
  | fuel + 1 =>
    match (fenceHead l).bind (fun r => beforeTriple (r.length + 1) r) with
    | some inner => some inner
    | none =>
      match l with
      | [] => none
      | _ :: rest => fencedComplete fuel rest

/-- Leftmost match of `` /```[\w]*\s*\n([\s\S]+)$/ `` (strategy 2),
returning the captured interior (everything to the end, at least one
character; when the text ends inside the whitespace run the engine
backtracks `\s*` to the previous newline, leaving a whitespace capture). -/
def fencedOpen (fuel : Nat) (l : List Char) : Option (List Char) :=
  match fuel with
  | 0 => none
  | fuel + 1 =>
    match fenceHead l with
    | some r =>
      if r ≠ [] then some r
      else
        -- the capture would be empty: backtrack `\s*` one newline earlier
        let run := (l.drop 3).dropWhile isWordChar |>.takeWhile jsWs
        let run' := run.dropLast
        if run'.contains '\n' then some (afterLastNl run' ++ ['\n']) else
        match l with
        | [] => none
        | _ :: rest => fencedOpen fuel rest
    | none =>
      match l with
      | [] => none
      | _ :: rest => fencedOpen fuel rest

/-- Match of the anchored `/^`([^`]+)`\s*$/` (strategy 3). -/
def inlineCodeMatch (l : List Char) : Option (List Char) :=
  match l with
  | c :: rest =>
    if c == backtick then
      let content := rest.takeWhile (fun x => x ≠ backtick)
      if content.isEmpty then none
      else
        match rest.drop content.length with
        | c' :: tail => if c' == backtick && tail.all jsWs then some content else none
        | [] => none
    else none
  | [] => none

/-- Code-like characters `[{}()[\];=<>/*]` of the prose heuristic. -/
def isCodeSymbol (c : Char) : Bool :=
  c == '{' || c == '}' || c == '(' || c == ')' || c == '[' || c == ']' ||
    c == ';' || c == '=' || c == '<' || c == '>' || c == '/' || c == '*'

/-- Sentence terminators `[.!?]`. -/
def isSentenceEnd (c : Char) : Bool := c == '.' || c == '!' || c == '?'

/-- The `(?:\s+[a-z]+){2,}[.!?]\s*$` tail of the prose pattern: repeatedly
consume whitespace-then-lowercase groups (greedy; a whitespace run not
followed by lowercase fails the whole match, since neither the terminator
nor a shrunk previous word can match there), then require at least two
groups, a terminator, and trailing whitespace to the end.  `fuel` bounds
the iteration (callers pass `l.length + 1`). -/
def proseTail (fuel : Nat) (l : List Char) (n : Nat) : Bool :=
  match fuel with
  | 0 => false
  | fuel + 1 =>
    match l with
    | [] => false
    | c :: _ =>
      if jsWs c then
        let l2 := l.dropWhile jsWs
        let w := l2.takeWhile isAsciiLower
        if w.isEmpty then false
        else proseTail fuel (l2.drop w.length) (n + 1)
      else
        2 ≤ n && isSentenceEnd c && (l.tail).all jsWs

/-- The full prose-sentence pattern `/^[A-Z][a-z]+(?:\s+[a-z]+){2,}[.!?]\s*$/`. -/
def proseShape (l : List Char) : Bool :=
  match l with
  | c :: rest =>
    if isAsciiUpper c then
      let w1 := rest.takeWhile isAsciiLower
      if w1.isEmpty then false
      else proseTail (rest.length + 1) (rest.drop w1.length) 0
    else false
  | [] => false

/-- The prose-line test of strategy 4 (`looksLikeProse`). -/
def looksLikeProse (t : List Char) : Bool := proseShape t && !(t.any isCodeSymbol)

/-- Strategy 4 of `extractCode`: drop blank and prose-looking lines,
rejoin, trim; `null` when nothing survives. -/
def rawTextStrategy (text : String) : Option String :=
  let lines := splitLines text
  let codeLines := lines.filter fun line =>
    let t := jsTrim line
    !t.data.isEmpty && !(looksLikeProse t.data)
  let candidate := jsTrim (joinNl codeLines)
  if candidate.data.isEmpty then none else some candidate

/-- Strategies 3 and 4 of `extractCode` (the code falls through to these
whenever neither fenced-block strategy returned). -/
def inlineOrRaw (text : String) : Option String :=
  match inlineCodeMatch text.data with
  | some content => some (jsTrim ⟨content⟩)
  | none => rawTextStrategy text

/-- `extractCode` of `promptBuilder.ts`. -/
def extractCode (rawText : String) : Option String :=
  let text0 := jsTrim rawText
  if text0.data.isEmpty then none
  else
    let text := jsTrim ⟨stripPreambleL text0.data⟩
    match fencedComplete (text.data.length + 1) text.data with
    | some inner => some (jsTrim ⟨inner⟩)
    | none =>
      match fencedOpen (text.data.length + 1) text.data with
      | some inner =>
        let candidate := jsTrim ⟨inner⟩
        if 10 < candidate.data.length then some candidate else inlineOrRaw text
      | none => inlineOrRaw text

end Optima

namespace Optima

/-! ### Code element extraction (`extractCriticalElements`) -/

/-- First character of a JS identifier, `[a-zA-Z_$]`. -/
def identStart (c : Char) : Bool := isAsciiLower c || isAsciiUpper c || c == '_' || c == '$'

/-- Subsequent character of a JS identifier, `[a-zA-Z0-9_$]`. -/
def identChar (c : Char) : Bool := identStart c || ('0' ≤ c && c ≤ '9')

/-- Literal (case-sensitive) prefix match returning the remainder. -/
def matchLitPrefix (pat l : List Char) : Option (List Char) :=
  if pat.isPrefixOf l then some (l.drop pat.length) else none

/-- Match `keyword\s+([a-zA-Z_$][a-zA-Z0-9_$]*)` at the head of `l`,
returning the captured identifier (maximal, which is what the greedy
capture matches since shrinking it puts an identifier character where
the pattern expects none). -/
def kwIdentAt (kw l : List Char) : Option (List Char) :=
  match matchLitPrefix kw l with
  | none => none
  | some r =>
    match matchWs1 r with
    | none => none
    | some r2 =>
      match r2 with
      | c :: _ => if identStart c then some (r2.takeWhile identChar) else none
      | [] => none

/-- Leftmost match of `/(?:const|let|var)\s+([a-zA-Z_$][a-zA-Z0-9_$]*)/`
(the alternatives tried in order at each position). -/
def firstVarName (fuel : Nat) (l : List Char) : Option (List Char) :=
  match fuel with
  | 0 => none
  | fuel + 1 =>
    match kwIdentAt "const".data l <|> kwIdentAt "let".data l <|> kwIdentAt "var".data l with
    | some w => some w
    | none =>
      match l with
      | [] => none
      | _ :: rest => firstVarName fuel rest

/-- The second branch `([a-zA-Z_$][a-zA-Z0-9_$]*)\s*=\s*(?:function|\([^)]*\)\s*=>)`
of the function pattern, at the head of `l`. -/
def arrowFuncAt (l : List Char) : Option (List Char) :=
  match l with
  | c :: _ =>
    if identStart c then
      let w := l.takeWhile identChar
      let r := (l.drop w.length).dropWhile jsWs
      match r with
      | '=' :: r2 =>
        let r3 := r2.dropWhile jsWs
        if "function".data.isPrefixOf r3 then some w
        else
          match r3 with
          | '(' :: r4 =>
            let ps := r4.takeWhile (fun x => x ≠ ')')
            match r4.drop ps.length with
            | ')' :: r5 => if "=>".data.isPrefixOf (r5.dropWhile jsWs) then some w else none
            | _ => none
          | _ => none
      | _ => none
    else none
  | [] => none

/-- Leftmost match of
`/(?:function\s+([a-zA-Z_$][a-zA-Z0-9_$]*)|([a-zA-Z_$][a-zA-Z0-9_$]*)\s*=\s*(?:function|\([^)]*\)\s*=>))/`,
returning whichever group matched. -/
def firstFuncName (fuel : Nat) (l : List Char) : Option (List Char) :=
  match fuel with
  | 0 => none
  | fuel + 1 =>
    match kwIdentAt "function".data l <|> arrowFuncAt l with
    | some w => some w
    | none =>
      match l with
      | [] => none
      | _ :: rest => firstFuncName fuel rest

/-- Leftmost match of `/class\s+([a-zA-Z_$][a-zA-Z0-9_$]*)/`. -/
def firstClassName (fuel : Nat) (l : List Char) : Option (List Char) :=
  match fuel with
  | 0 => none
  | fuel + 1 =>
    match kwIdentAt "class".data l with
    | some w => some w
    | none =>
      match l with
      | [] => none
      | _ :: rest => firstClassName fuel rest

/-- Match `from\s+['"]([^'"]+)['"]` at the head of `l`, returning the
captured module path. -/
def fromQuoteAt (l : List Char) : Option (List Char) :=
  match matchLitPrefix "from".data l with
  | none => none
  | some r =>
    match matchWs1 r with
    | none => none
    | some r2 =>
      match r2 with
      | q :: r3 =>
        if q == '"' || q == squote then
          let content := r3.takeWhile (fun x => !(x == '"' || x == squote))
          if content.isEmpty then none
          else
            match r3.drop content.length with
            | q2 :: _ => if q2 == '"' || q2 == squote then some content else none
            | [] => none
        else none
      | [] => none

/-- The lazy `.*?from\s+['"]([^'"]+)['"]` tail of the import pattern: the
earliest position (never crossing a newline, since `.` does not match
`\n`) where the `from`-quote part matches. -/
def importTail (fuel : Nat) (l : List Char) : Option (List Char) :=
  match fuel with
  | 0 => none
  | fuel + 1 =>
    match fromQuoteAt l with
    | some w => some w
    | none =>
      match l with
      | [] => none
      | c :: rest => if c = '\n' then none else importTail fuel rest

/-- Leftmost match of `/import\s+.*?from\s+['"]([^'"]+)['"]/`. -/
def firstImportPath (fuel : Nat) (l : List Char) : Option (List Char) :=
  match fuel with
  | 0 => none
  | fuel + 1 =>
    match (matchLitPrefix "import".data l).bind (fun r =>
      (matchWs1 r).bind (fun r2 => importTail (r2.length + 1) r2)) with
    | some w => some w
    | none =>
      match l with
      | [] => none
      | _ :: rest => firstImportPath fuel rest

/-- Insert into a JS `Set` modelled as a duplicate-free list in insertion
order. -/
def insertUniq (l : List String) (x : String) : List String :=
  if l.contains x then l else l ++ [x]

/-- Result record of `extractCriticalElements`. -/
structure CriticalElements where
  vars : List String
  functions : List String
  classes : List String
  imports : List String
deriving DecidableEq, Repr

/-- `extractCriticalElements` of `promptBuilder.ts`: per trimmed line, the
first variable / function / class / import match, collected into sets. -/
def extractCriticalElements (code : String) : CriticalElements :=
  (splitLines code).foldl
    (fun acc line =>
      let t := (jsTrim line).data
      let acc1 :=
        match firstVarName (t.length + 1) t with
        | some w => { acc with vars := insertUniq acc.vars ⟨w⟩ }
        | none => acc
      let acc2 :=
        match firstFuncName (t.length + 1) t with
        | some w => { acc1 with functions := insertUniq acc1.functions ⟨w⟩ }
        | none => acc1
      let acc3 :=
        match firstClassName (t.length + 1) t with
        | some w => { acc2 with classes := insertUniq acc2.classes ⟨w⟩ }
        | none => acc2
      match firstImportPath (t.length + 1) t with
      | some w => { acc3 with imports := insertUniq acc3.imports ⟨w⟩ }
      | none => acc3)
    ⟨[], [], [], []⟩

/-- Result record of `validateElementPreservation`. -/
structure MissingElements where
  missingVariables : List String
  missingFunctions : List String
  missingClasses : List String
  missingImports : List String
deriving DecidableEq, Repr

/-- `validateElementPreservation` of `promptBuilder.ts`. -/
def validateElementPreservation (original optimized : String) : MissingElements :=
  let orig := extractCriticalElements original
  let opt := extractCriticalElements optimized
  ⟨orig.vars.filter (fun v => !opt.vars.contains v),
   orig.functions.filter (fun f => !opt.functions.contains f),
   orig.classes.filter (fun c => !opt.classes.contains c),
   orig.imports.filter (fun i => !opt.imports.contains i)⟩

/-- The conventional-short-name list of `isTrivialVar`. -/
def trivialVarNames : List String :=
  ["i", "j", "k", "n", "m", "x", "y", "z", "tmp", "temp", "idx", "len", "val",
   "res", "ret", "err", "ok", "cb"]

/-- `isTrivialVar` of `normalizeLLMOutput` (step 4): a single lowercase
letter or a listed conventional name. -/
def isTrivialVar (name : String) : Bool :=
  (match name.data with
   | [c] => isAsciiLower c
   | _ => false) || trivialVarNames.contains name

end Optima

namespace Optima

/-! ### The result record and the main normalizer -/

/-- An entry of `detected_patterns` (shape from the `OptimizationResult`
interface of `promptBuilder.ts`). -/
structure DetectedPattern where
  type : String
  description : String
  severity : String
deriving DecidableEq, Repr

/-- An entry of `possible_optimizations`. -/
structure PossibleOptimization where
  action : String
  rationale : String
  expectedImpact : String
deriving DecidableEq, Repr

/-- Modelled from the spec: the `StaticAnalysis` record imported from
`staticAnalyzer.ts`, whose source is not in the repository snapshot.  §3 of
the spec fixes exactly the fields the normalizer reads: `language`,
`detected_patterns`, `possible_optimizations`, `confidence_score` (a
number in `[0,1]`, modelled as `ℚ`), `estimated_complexity`,
`detected_algorithm`. -/
structure StaticAnalysis where
  language : String
  detected_patterns : List DetectedPattern
  possible_optimizations : List PossibleOptimization
  confidence_score : ℚ
  estimated_complexity : String
  detected_algorithm : String
deriving DecidableEq, Repr

/-- The `OptimizationResult` interface of `promptBuilder.ts`.  Optional
(`?:`) fields are `Option`s; `confidence` is an integer (`Math.round`
result, further only capped). -/
structure OptimizationResult where
  algorithm : String
  complexity_before : String
  complexity_after : String
  bottleneck : String
  bottleneck_summary : Option String := none
  strategy : String
  optimization_strategy : String
  tradeoffs : String
  estimated_improvement : String
  confidence : Int
  explanation : String
  optimized_code : String
  time_complexity : Option String := none
  time_complexity_after : Option String := none
  detected_patterns : Option (List DetectedPattern) := none
  possible_optimizations : Option (List PossibleOptimization) := none
  static_confidence_score : Option ℚ := none
  _parsed : Bool
  _no_change : Bool
  _c_language : Option Bool := none
  _parse_warning : Option String := none
deriving DecidableEq, Repr

/-- JavaScript `s || dflt` for strings (empty is falsy). -/
def jsOrStr (s dflt : String) : String := if s.data.isEmpty then dflt else s

/-- JavaScript `x?.f || dflt` for an optional string. -/
def jsOrOpt (o : Option String) (dflt : String) : String :=
  match o with
  | none => dflt
  | some s => jsOrStr s dflt

/-- Warning of the extraction-failure fallback. -/
def extractFailWarn : String := "Could not extract any code from model output."

/-- Warning of the unrepairable-truncation fallback. -/
def truncFallbackWarn : String :=
  "Model output was truncated and could not be repaired; original code preserved."

/-- Parse warning recorded when brackets were appended. -/
def repairWarn : String :=
  "Model output was truncated; missing closing brackets were appended automatically."

/-- Warning of the size-check fallback. -/
def sizeWarn (optM origM : Nat) : String :=
  "Model output appears severely truncated (" ++ (toString optM ++
    (" meaningful lines vs " ++ (toString origM ++ "); original preserved.")))

/-- Warning of the element-preservation fallback. -/
def elemWarn (parts : List String) : String :=
  "Model dropped critical elements (" ++ (String.intercalate "; " parts ++
    "); original code preserved to prevent data loss.")

/-- Warning of the low-similarity fallback. -/
def simWarn (k : Nat) : String :=
  "Optimized code similarity too low (" ++ (toString k ++
    ("%) — likely hallucination; original preserved."))

/-- `buildExplanation` of `promptBuilder.ts`. -/
def buildExplanation (analysis : StaticAnalysis) : String :=
  let p1 : List String :=
    match analysis.detected_patterns with
    | [] => []
    | ps =>
      let highSev := ps.filter (fun p => p.severity == "high")
      if 0 < highSev.length then
        ["Fixed " ++ toString highSev.length ++ " high-severity issue(s): " ++
          String.intercalate ", " (highSev.map (fun p => p.description)) ++ "."]
      else
        ["Improved " ++ toString ps.length ++ " detected pattern(s)."]
  let p2 : List String :=
    match analysis.possible_optimizations with
    | [] => []
    | o :: _ => ["Applied: " ++ o.action ++ "."]
  jsOrStr (String.intercalate " " (p1 ++ p2)) "Performance optimization applied."

/-- `estimateImprovedComplexity` of `promptBuilder.ts`. -/
def estimateImprovedComplexity (analysis : StaticAnalysis) : String :=
  let current := analysis.estimated_complexity
  if containsSub current.data "n²".data || containsSub current.data "n^2".data ||
      containsSub current.data "nÂ²".data then "O(n)"
  else if containsSub current.data "n³".data || containsSub current.data "n^3".data ||
      containsSub current.data "nÂ³".data then "O(n²)"
  else if containsSub current.data "n log n".data then "O(n)"
  else current

/-- `estimateImprovement` of `promptBuilder.ts`. -/
def estimateImprovement (analysis : StaticAnalysis) : String :=
  let hasHigh := analysis.detected_patterns.any (fun p => p.severity == "high")
  let hasMedium := analysis.detected_patterns.any (fun p => p.severity == "medium")
  if hasHigh then "Significant - reduced time complexity"
  else if hasMedium then "Moderate - improved efficiency"
  else "Minor optimization applied"

/-- `makeFallback` of `promptBuilder.ts`. -/
def makeFallback (originalCode : String) (isC : Bool) (analysis : StaticAnalysis)
    (warn : String) : OptimizationResult :=
  { algorithm := jsOrStr analysis.detected_algorithm "Custom Logic"
    complexity_before := jsOrStr analysis.estimated_complexity "Unknown"
    complexity_after := jsOrStr analysis.estimated_complexity "Unknown"
    bottleneck := jsOrOpt ((analysis.detected_patterns.head?).map fun p => p.description) "None detected"
    strategy := "Fallback - original preserved"
    optimization_strategy := "Fallback - original preserved"
    tradeoffs := "None"
    estimated_improvement := "No measurable improvement"
    confidence := 0
    explanation := warn
    optimized_code := originalCode
    detected_patterns := some analysis.detected_patterns
    possible_optimizations := some analysis.possible_optimizations
    static_confidence_score := some analysis.confidence_score
    _parsed := false
    _no_change := true
    _c_language := if isC then some true else none
    _parse_warning := some warn }

/-- The size-check condition `meaningfulRatio < sizeThreshold` of step 3
(`optM/origM < 1/10`, `3/10` or `2/5`; ratio defaulting to `1` when
`origM = 0`), computed by exact cross multiplication. -/
def sizeTooSmallB (originalCode extracted : String) : Bool :=
  let origMeaningful := countMeaningfulLines originalCode
  let optMeaningful := countMeaningfulLines extracted
  if 0 < origMeaningful then
    if origMeaningful ≤ 10 then decide (optMeaningful * 10 < origMeaningful * 1)
    else if origMeaningful ≤ 40 then decide (optMeaningful * 10 < origMeaningful * 3)
    else decide (optMeaningful * 5 < origMeaningful * 2)
  else false

/-- The `missingParts` array of step 4: one descriptive entry per
non-empty missing-element category (trivial variable names discarded). -/
def missingPartsOf (originalCode extracted : String) : List String :=
  let ev := validateElementPreservation originalCode extracted
  let meaningfulMissingVars := ev.missingVariables.filter (fun v => !isTrivialVar v)
  (if 0 < meaningfulMissingVars.length then
    [toString meaningfulMissingVars.length ++ " variable(s): " ++
      String.intercalate ", " meaningfulMissingVars] else []) ++
  (if 0 < ev.missingFunctions.length then
    [toString ev.missingFunctions.length ++ " function(s): " ++
      String.intercalate ", " ev.missingFunctions] else []) ++
  (if 0 < ev.missingClasses.length then
    [toString ev.missingClasses.length ++ " class(es): " ++
      String.intercalate ", " ev.missingClasses] else []) ++
  (if 0 < ev.missingImports.length then
    [toString ev.missingImports.length ++ " import(s): " ++
      String.intercalate ", " ev.missingImports] else [])

/-- Steps 3–6 of `normalizeLLMOutput` (size sanity check, element
preservation, similarity, result assembly), for an extracted-and-possibly-
repaired candidate. -/
def normalizeStep3 (extracted : String) (parseWarning : Option String)
    (originalCode : String) (analysis : StaticAnalysis) (isC : Bool) : OptimizationResult :=
  let origMeaningful := countMeaningfulLines originalCode
  let optMeaningful := countMeaningfulLines extracted
  if sizeTooSmallB originalCode extracted then
    makeFallback originalCode isC analysis (sizeWarn optMeaningful origMeaningful)
  else
    if 0 < (missingPartsOf originalCode extracted).length then
      makeFallback originalCode isC analysis (elemWarn (missingPartsOf originalCode extracted))
    else
      let similarity := calculateCodeSimilarity originalCode extracted
      let noChange := normalizeCode extracted == normalizeCode originalCode
      if similarity < 50 && !noChange then
        makeFallback originalCode isC analysis (simWarn similarity)
      else
        let explanation :=
          if noChange then "Code is already well-optimized. No meaningful changes found."
          else "Applied conservative optimization (" ++ toString similarity ++
            "% similarity preserved). " ++ buildExplanation analysis
        let confidence0 : Int := if noChange then 100 else jsRound (analysis.confidence_score * 100)
        let confidence1 := if isC && decide (70 < confidence0) && !noChange then 70 else confidence0
        let confidence2 := if similarity < 80 then min confidence1 60 else confidence1
        let confidence3 := if parseWarning.isSome then min confidence2 50 else confidence2
        let strategy :=
          if noChange then "No change needed"
          else jsOrOpt ((analysis.possible_optimizations.head?).map fun o => o.action)
            "Conservative optimization applied"
        { algorithm := jsOrStr analysis.detected_algorithm "Custom Logic"
          complexity_before := jsOrStr analysis.estimated_complexity "Unknown"
          complexity_after :=
            if noChange then jsOrStr analysis.estimated_complexity "Unknown"
            else estimateImprovedComplexity analysis
          bottleneck := jsOrOpt ((analysis.detected_patterns.head?).map fun p => p.description) "None detected"
          strategy := strategy
          optimization_strategy := strategy
          tradeoffs := "None"
          estimated_improvement :=
            if noChange then "No measurable improvement" else estimateImprovement analysis
          confidence := confidence3
          explanation := explanation
          optimized_code := extracted
          detected_patterns := some analysis.detected_patterns
          possible_optimizations := some analysis.possible_optimizations
          static_confidence_score := some analysis.confidence_score
          _parsed := true
          _no_change := noChange
          _c_language := if isC then some true else none
          _parse_warning := parseWarning }

/-- The JS-falsy language override `language || analysis.language` of
`normalizeLLMOutput`. -/
def effLang (language : Option String) (analysis : StaticAnalysis) : String :=
  match language with
  | some l => if l.data.isEmpty then analysis.language else l
  | none => analysis.language

/-- `normalizeLLMOutput` of `promptBuilder.ts`.  Steps 1–2 (extraction,
truncation repair) are inlined here, steps 3–6 in `normalizeStep3`.  The
`if (!extracted)` guard of step 1 is JS-falsy: it fires both when
`extractCode` returns null and when it returns the empty string. -/
def normalizeLLMOutput (rawText originalCode : String) (analysis : StaticAnalysis)
    (language : Option String) : OptimizationResult :=
  let lang := effLang language analysis
  let isC := lang == "C"
  match extractCode rawText with
  | none => makeFallback originalCode isC analysis extractFailWarn
  | some extracted0 =>
    if extracted0.data.isEmpty then
      makeFallback originalCode isC analysis extractFailWarn
    else if isCodeTruncated extracted0 || (repairTruncatedCode extracted0).wasRepaired then
      if (repairTruncatedCode extracted0).wasRepaired then
        normalizeStep3 (repairTruncatedCode extracted0).repaired (some repairWarn)
          originalCode analysis isC
      else makeFallback originalCode isC analysis truncFallbackWarn
    else normalizeStep3 extracted0 none originalCode analysis isC

end Optima

namespace Optima

/-! ### Helper definitions for the claim statements -/

/-- Per-entry side consistency of a `DiffLine`: `originalLineNo` non-null
iff the line exists on the original side, `newLineNo` non-null iff it
exists on the new side. -/
def sideOk (e : DiffLine) : Prop :=
  ((e.originalLineNo ≠ none) ↔ (e.type = .removed ∨ e.type = .unchanged)) ∧
  ((e.newLineNo ≠ none) ↔ (e.type = .added ∨ e.type = .unchanged))

/-- Strict increase of the original-side line numbers between two entries
(vacuous when either is null). -/
def origLt (e₁ e₂ : DiffLine) : Prop :=
  ∀ x y, e₁.originalLineNo = some x → e₂.originalLineNo = some y → x < y

/-- Strict increase of the new-side line numbers between two entries. -/
def newLt (e₁ e₂ : DiffLine) : Prop :=
  ∀ x y, e₁.newLineNo = some x → e₂.newLineNo = some y → x < y

/-- The candidate that reaches steps 3–6 of the pipeline: the bracket-
repaired text when a repair happened, the extracted text otherwise. -/
def postRepairCandidate (e : String) : String :=
  if (repairTruncatedCode e).wasRepaired then (repairTruncatedCode e).repaired else e

/-- The confidence computation of step 6 as the claim states it: 100 on a
no-change result, else `round(confidence_score × 100)`; then capped to 70
for the conservative C target when a change was made, to 60 when the
similarity score is below 80, and to 50 when a bracket repair occurred. -/
def confFormula (noChange : Bool) (isC : Bool) (score : ℚ) (similarity : Nat)
    (repaired : Bool) : Int :=
  let c0 : Int := if noChange then 100 else jsRound (score * 100)
  let c1 := if isC && decide (70 < c0) && !noChange then 70 else c0
  let c2 := if similarity < 80 then min c1 60 else c1
  if repaired then min c2 50 else c2

/-- The size check of step 3 as the claim states it, over exact rationals:
the ratio of candidate meaningful lines to original meaningful lines
(defaulting to 1 when the original has none) is strictly below the
size-scaled threshold 0.10 / 0.30 / 0.40. -/
def sizeCheckFails (orig cand : String) : Prop :=
  let origM := countMeaningfulLines orig
  let candM := countMeaningfulLines cand
  (if 0 < origM then (candM : ℚ) / origM else 1) <
    (if origM ≤ 10 then 1/10 else if origM ≤ 40 then 3/10 else 2/5)

/-- A concrete `StaticAnalysis` used by witnesses. -/
def sampleAnalysis : StaticAnalysis := ⟨"JavaScript", [], [], 1, "O(n)", "Loop"⟩

/-- A 301-line input (300 newlines), exceeding the diff engine's 300-line
cap. -/
def oversizeInput : String := String.intercalate "\n" (List.replicate 301 "a")

/-- A 10-meaningful-line original used at the size-check boundary. -/
def tenLineOriginal : String := "a1\nb2\nc3\nd4\ne5\nf6\ng7\nh8\ni9\nj0"

end Optima

namespace Optima

/-! ### Lemmas about the string utilities -/

theorem data_ne_nil_append (a b : String) (h : a.data ≠ []) : (a ++ b).data ≠ [] := by
  rw [data_append]
  simp [h]

theorem length_dropWhile_le (p : Char → Bool) (l : List Char) :
    (l.dropWhile p).length ≤ l.length := by
  induction l with
  | nil => simp
  | cons c t ih =>
    by_cases h : p c
    · simp only [List.dropWhile_cons, h, if_true]
      exact Nat.le_trans ih (Nat.le_succ _)
    · simp [List.dropWhile_cons, h]

theorem dropWhile_idem (p : Char → Bool) (l : List Char) :
    (l.dropWhile p).dropWhile p = l.dropWhile p := by
  induction l with
  | nil => rfl
  | cons c t ih =>
    by_cases h : p c
    · simp [List.dropWhile_cons, h, ih]
    · simp [List.dropWhile_cons, h]

theorem dropWhile_eq_self_head (p : Char → Bool) (c : Char) (t : List Char)
    (h : (c :: t).dropWhile p = c :: t) : p c = false := by
  by_contra hc
  rw [List.dropWhile_cons, if_pos (by simpa using hc)] at h
  have hle := length_dropWhile_le p t
  rw [h] at hle
  simp at hle

theorem trimEnd_decomp (l : List Char) :
    trimEndL l ++ (l.reverse.takeWhile jsWs).reverse = l := by
  unfold trimEndL
  rw [← List.reverse_append, List.takeWhile_append_dropWhile, List.reverse_reverse]

theorem trimEnd_suffix_ws (l : List Char) :
    ∀ c ∈ (l.reverse.takeWhile jsWs).reverse, jsWs c = true := by
  intro c hc
  rw [List.mem_reverse] at hc
  exact List.mem_takeWhile_imp hc

theorem trimStartL_idem (l : List Char) : trimStartL (trimStartL l) = trimStartL l :=
  dropWhile_idem jsWs l

theorem trimEndL_idem (l : List Char) : trimEndL (trimEndL l) = trimEndL l := by
  unfold trimEndL
  rw [List.reverse_reverse, dropWhile_idem]

theorem dropWhile_eq_self_of_append (p : Char → Bool) (l₁ l₂ : List Char)
    (h : (l₁ ++ l₂).dropWhile p = l₁ ++ l₂) : l₁.dropWhile p = l₁ := by
  cases l₁ with
  | nil => rfl
  | cons c t =>
    have hc : p c = false := dropWhile_eq_self_head p c (t ++ l₂) (by simpa using h)
    simp [List.dropWhile_cons, hc]

theorem trimStartL_trimEndL (l : List Char) (h : trimStartL l = l) :
    trimStartL (trimEndL l) = trimEndL l := by
  have hd := trimEnd_decomp l
  unfold trimStartL at *
  exact dropWhile_eq_self_of_append jsWs (trimEndL l) _ (by rw [hd]; exact h)

theorem jsTrim_idem (s : String) : jsTrim (jsTrim s) = jsTrim s := by
  unfold jsTrim
  apply String.ext
  show trimEndL (trimStartL (trimEndL (trimStartL s.data))) = trimEndL (trimStartL s.data)
  rw [trimStartL_trimEndL _ (trimStartL_idem s.data), trimEndL_idem]

theorem trimEndL_ne_nil (c : Char) (t : List Char) (h : jsWs c = false) :
    trimEndL (c :: t) ≠ [] := by
  unfold trimEndL
  rw [List.reverse_cons, List.dropWhile_append]
  split
  · simp [List.dropWhile_cons, h]
  · simp

theorem splitNlL_ne_nil (l : List Char) : splitNlL l ≠ [] := by
  cases l with
  | nil => simp [splitNlL]
  | cons c t =>
    rw [splitNlL]
    split
    · simp
    · split <;> simp

/-- A trim-stable non-empty string starts with a non-whitespace character. -/
theorem trimmed_head (s : String) (h1 : jsTrim s = s) (h2 : s ≠ "") :
    ∃ c t, s.data = c :: t ∧ jsWs c = false := by
  have hd : s.data ≠ [] := fun he => h2 (String.ext (by simp [he]))
  obtain ⟨c, t, hct⟩ : ∃ c t, s.data = c :: t := by
    cases hs : s.data with
    | nil => exact absurd hs hd
    | cons c t => exact ⟨c, t, rfl⟩
  refine ⟨c, t, hct, ?_⟩
  have hdata : trimEndL (trimStartL s.data) = s.data := by
    have := congrArg String.data h1
    simpa [jsTrim] using this
  by_contra hcw
  have hcw' : jsWs c = true := by simpa using hcw
  have h3 : trimStartL s.data = trimStartL t := by
    rw [hct]
    simp [trimStartL, List.dropWhile_cons, hcw']
  have hle : (trimEndL (trimStartL s.data)).length ≤ t.length := by
    rw [h3]
    calc (trimEndL (trimStartL t)).length ≤ (trimStartL t).length := by
          unfold trimEndL
          rw [List.length_reverse]
          calc ((trimStartL t).reverse.dropWhile jsWs).length
              ≤ (trimStartL t).reverse.length := length_dropWhile_le _ _
            _ = (trimStartL t).length := List.length_reverse _
      _ ≤ t.length := length_dropWhile_le _ _
  rw [hdata, hct] at hle
  simp at hle

/-- The first line of a trim-stable non-empty string is non-blank. -/
theorem splitLines_head_nonblank (s : String) (h1 : jsTrim s = s) (h2 : s ≠ "") :
    ∃ l rest, splitLines s = l :: rest ∧ ((jsTrim l).data.isEmpty) = false := by
  obtain ⟨c, t, hct, hcw⟩ := trimmed_head s h1 h2
  have hcn : (c == '\n') = false := by
    cases hb : c == '\n'
    · rfl
    · exfalso
      have : c = '\n' := by simpa using hb
      subst this
      simp [jsWs] at hcw
  obtain ⟨piece, pieces, hsp⟩ :
      ∃ piece pieces, splitNlL (c :: t) = (c :: piece) :: pieces := by
    rw [splitNlL]
    rw [if_neg (by simp_all)]
    cases hq : splitNlL t with
    | nil => exact absurd hq (splitNlL_ne_nil t)
    | cons p ps => exact ⟨p, ps, rfl⟩
  refine ⟨⟨c :: piece⟩, (pieces.map String.mk), ?_, ?_⟩
  · unfold splitLines
    rw [hct, hsp]
    simp
  · have hstart : trimStartL (c :: piece) = c :: piece := by
      simp [trimStartL, List.dropWhile_cons, hcw]
    have : (jsTrim ⟨c :: piece⟩).data = trimEndL (c :: piece) := by
      simp [jsTrim, hstart]
    rw [this]
    cases he : trimEndL (c :: piece) with
    | nil => exact absurd he (trimEndL_ne_nil c piece hcw)
    | cons a b => rfl

/-- A line always positionally matches itself. -/
theorem lineMatches_self (a : String) : lineMatches a a = true := by
  unfold lineMatches
  simp

theorem zipSelf_filter_length (L : List String) :
    ((L.zip L).filter (fun op => lineMatches op.1 op.2)).length = L.length := by
  induction L with
  | nil => rfl
  | cons a t ih => simp [List.zip_cons_cons, lineMatches_self, ih]

theorem natRound_sq_100 (m : Nat) (h : 0 < m) : natRound (m * m * 100) (m * m) = 100 := by
  unfold natRound
  have h1 : 2 * (m * m * 100) + m * m = (m * m) * 201 := by ring
  have h2 : 2 * (m * m) = (m * m) * 2 := by ring
  rw [h1, h2, Nat.mul_div_mul_left _ _ (Nat.mul_pos h h)]

/-- Self-similarity is 100 whenever the trimmed text is non-empty. -/
theorem calculateCodeSimilarity_self (X : String) (h : jsTrim X ≠ "") :
    calculateCodeSimilarity X X = 100 := by
  obtain ⟨l, rest, hsplit, hblank⟩ :=
    splitLines_head_nonblank (jsTrim X) (jsTrim_idem X) h
  unfold calculateCodeSimilarity
  have hL : ∃ t, (splitLines (jsTrim X)).filter (fun l => !(jsTrim l).data.isEmpty) = l :: t := by
    rw [hsplit]
    rw [List.filter_cons]
    simp only [hblank]
    exact ⟨_, rfl⟩
  obtain ⟨t, hLt⟩ := hL
  rw [hLt]
  have hlen : (l :: t).length ≠ 0 := by simp
  rw [if_neg (by simp)]
  rw [zipSelf_filter_length]
  simp only [Nat.min_self, Nat.max_self]
  exact natRound_sq_100 _ (by simp)

end Optima

namespace Optima

/-! ### Lemmas about `extractCode` outputs -/

theorem rawTextStrategy_isTrimmed (text t : String) (h : rawTextStrategy text = some t) :
    ∃ u, t = jsTrim u := by
  simp only [rawTextStrategy] at h
  split at h
  · exact absurd h (by simp)
  · exact ⟨_, (Option.some.inj h).symm⟩

theorem inlineOrRaw_isTrimmed (text t : String) (h : inlineOrRaw text = some t) :
    ∃ u, t = jsTrim u := by
  simp only [inlineOrRaw] at h
  split at h
  · exact ⟨_, (Option.some.inj h).symm⟩
  · exact rawTextStrategy_isTrimmed _ _ h

theorem extractCode_isTrimmed (s t : String) (h : extractCode s = some t) :
    jsTrim t = t := by
  have : ∃ u, t = jsTrim u := by
    simp only [extractCode] at h
    split at h
    · exact absurd h (by simp)
    · split at h
      · exact ⟨_, (Option.some.inj h).symm⟩
      · split at h
        · split at h
          · exact ⟨_, (Option.some.inj h).symm⟩
          · exact inlineOrRaw_isTrimmed _ _ h
        · exact inlineOrRaw_isTrimmed _ _ h
  obtain ⟨u, rfl⟩ := this
  exact jsTrim_idem u

theorem extractCode_ne_empty (s t : String) (h : extractCode s = some t) : s ≠ "" := by
  intro he
  subst he
  have hnone : extractCode "" = none := by decide
  rw [hnone] at h
  exact Option.noConfusion h

end Optima

namespace Optima

/-! ### Lemmas about the fallback warnings -/

theorem getD_append_left (l₁ l₂ : List Char) (n : Nat) (d : Char) (h : n < l₁.length) :
    (l₁ ++ l₂).getD n d = l₁.getD n d := by
  simp [List.getD_eq_getElem?_getD, List.getElem?_append_left h]

theorem string_ne_of_getD (s t : String) (k : Nat)
    (h : s.data.getD k ' ' ≠ t.data.getD k ' ') : s ≠ t := fun he => h (he ▸ rfl)

theorem sizeWarn_ne_empty (n m : Nat) : sizeWarn n m ≠ "" := by
  intro h
  exact data_ne_nil_append _ _ (by decide) (congrArg String.data h)

theorem elemWarn_ne_empty (parts : List String) : elemWarn parts ≠ "" := by
  intro h
  exact data_ne_nil_append _ _ (by decide) (congrArg String.data h)

theorem simWarn_ne_empty (k : Nat) : simWarn k ≠ "" := by
  intro h
  exact data_ne_nil_append _ _ (by decide) (congrArg String.data h)

theorem sizeWarn_getD13 (n m : Nat) : (sizeWarn n m).data.getD 13 ' ' = 'a' := by
  unfold sizeWarn
  rw [data_append, getD_append_left _ _ _ _ (by decide)]
  decide

theorem elemWarn_getD6 (parts : List String) : (elemWarn parts).data.getD 6 ' ' = 'd' := by
  unfold elemWarn
  rw [data_append, getD_append_left _ _ _ _ (by decide)]
  decide

theorem simWarn_getD0 (k : Nat) : (simWarn k).data.getD 0 ' ' = 'O' := by
  unfold simWarn
  rw [data_append, getD_append_left _ _ _ _ (by decide)]
  decide

theorem sizeWarn_getD0 (n m : Nat) : (sizeWarn n m).data.getD 0 ' ' = 'M' := by
  unfold sizeWarn
  rw [data_append, getD_append_left _ _ _ _ (by decide)]
  decide

theorem sizeWarn_getD6 (n m : Nat) : (sizeWarn n m).data.getD 6 ' ' = 'o' := by
  unfold sizeWarn
  rw [data_append, getD_append_left _ _ _ _ (by decide)]
  decide

theorem sizeWarn_ne_trunc (n m : Nat) : sizeWarn n m ≠ truncFallbackWarn := by
  apply string_ne_of_getD _ _ 13
  rw [sizeWarn_getD13]
  decide

theorem elemWarn_ne_trunc (parts : List String) : elemWarn parts ≠ truncFallbackWarn := by
  apply string_ne_of_getD _ _ 6
  rw [elemWarn_getD6]
  decide

theorem simWarn_ne_trunc (k : Nat) : simWarn k ≠ truncFallbackWarn := by
  apply string_ne_of_getD _ _ 0
  rw [simWarn_getD0]
  decide

theorem repairWarn_ne_trunc : repairWarn ≠ truncFallbackWarn := by decide

theorem elemWarn_ne_sizeWarn (parts : List String) (n m : Nat) :
    elemWarn parts ≠ sizeWarn n m := by
  apply string_ne_of_getD _ _ 6
  rw [elemWarn_getD6, sizeWarn_getD6]
  decide

theorem simWarn_ne_sizeWarn (k n m : Nat) : simWarn k ≠ sizeWarn n m := by
  apply string_ne_of_getD _ _ 0
  rw [simWarn_getD0, sizeWarn_getD0]
  decide

theorem repairWarn_ne_sizeWarn (n m : Nat) : repairWarn ≠ sizeWarn n m := by
  apply string_ne_of_getD _ _ 13
  rw [sizeWarn_getD13]
  decide

end Optima

namespace Optima

/-! ### Case analysis of `normalizeStep3` -/

theorem validateElementPreservation_self (s : String) :
    validateElementPreservation s s = ⟨[], [], [], []⟩ := by
  unfold validateElementPreservation
  have hfilter : ∀ (l : List String), l.filter (fun v => !l.contains v) = [] := by
    intro l
    rw [List.filter_eq_nil_iff]
    intro a ha
    simpa [List.contains, List.elem_iff] using ha
  simp only [hfilter]

/-- Outcomes of steps 3–6: one of the three fallbacks, or the accepted
record with its confidence given by the cap formula. -/
theorem step3_cases (ext : String) (pw : Option String) (orig : String)
    (analysis : StaticAnalysis) (isC : Bool) :
    (∃ w, normalizeStep3 ext pw orig analysis isC = makeFallback orig isC analysis w ∧
      (w = sizeWarn (countMeaningfulLines ext) (countMeaningfulLines orig) ∨
       (∃ parts, w = elemWarn parts) ∨
       w = simWarn (calculateCodeSimilarity orig ext))) ∨
    ((normalizeStep3 ext pw orig analysis isC)._parsed = true ∧
     (normalizeStep3 ext pw orig analysis isC)._parse_warning = pw ∧
     (normalizeStep3 ext pw orig analysis isC).optimized_code = ext ∧
     (normalizeStep3 ext pw orig analysis isC)._no_change =
       (normalizeCode ext == normalizeCode orig) ∧
     (normalizeStep3 ext pw orig analysis isC).confidence =
       confFormula (normalizeCode ext == normalizeCode orig) isC analysis.confidence_score
         (calculateCodeSimilarity orig ext) pw.isSome) := by
  simp only [normalizeStep3]
  split
  · exact Or.inl ⟨_, rfl, Or.inl rfl⟩
  · split
    · exact Or.inl ⟨_, rfl, Or.inr (Or.inl ⟨_, rfl⟩)⟩
    · split
      · exact Or.inl ⟨_, rfl, Or.inr (Or.inr rfl)⟩
      · exact Or.inr ⟨rfl, rfl, rfl, rfl, rfl⟩

/-- A string whose character list is empty is the empty string. -/
theorem string_eq_empty_of_data_isEmpty (s : String) (h : s.data.isEmpty = true) : s = "" := by
  cases s with
  | mk d =>
    cases d with
    | nil => rfl
    | cons a as => exact Bool.noConfusion h

/-- The extraction-failure warning differs from the truncation-fallback
warning. -/
theorem extractFailWarn_ne_trunc : extractFailWarn ≠ truncFallbackWarn := by
  decide

/-- Step 3 is reached exactly when extraction succeeded with a JS-truthy
(non-empty) candidate and the truncated-unrepairable exit did not fire;
this lemma records the three shapes of `normalizeLLMOutput` after
`extractCode` returns a value. -/
theorem normalize_cases (rawText orig : String) (analysis : StaticAnalysis)
    (language : Option String) (e : String) (hE : extractCode rawText = some e) :
    (e.data.isEmpty = true ∧
      normalizeLLMOutput rawText orig analysis language =
        makeFallback orig (effLang language analysis == "C") analysis extractFailWarn) ∨
    (e.data.isEmpty = false ∧ isCodeTruncated e = true ∧
      (repairTruncatedCode e).wasRepaired = false ∧
      normalizeLLMOutput rawText orig analysis language =
        makeFallback orig (effLang language analysis == "C") analysis truncFallbackWarn) ∨
    (e.data.isEmpty = false ∧
      ¬(isCodeTruncated e = true ∧ (repairTruncatedCode e).wasRepaired = false) ∧
      normalizeLLMOutput rawText orig analysis language =
        normalizeStep3 (postRepairCandidate e)
          (if (repairTruncatedCode e).wasRepaired then some repairWarn else none)
          orig analysis (effLang language analysis == "C")) := by
  by_cases hemp : e.data.isEmpty = true
  · refine Or.inl ⟨hemp, ?_⟩
    simp [normalizeLLMOutput, hE, hemp]
  · have hemp' : e.data.isEmpty = false := by simpa using hemp
    by_cases hr : (repairTruncatedCode e).wasRepaired = true
    · refine Or.inr (Or.inr ⟨hemp', by simp [hr], ?_⟩)
      simp [normalizeLLMOutput, hE, hemp', hr, postRepairCandidate]
    · have hr' : (repairTruncatedCode e).wasRepaired = false := by simpa using hr
      by_cases ht : isCodeTruncated e = true
      · refine Or.inr (Or.inl ⟨hemp', ht, hr', ?_⟩)
        simp [normalizeLLMOutput, hE, hemp', hr', ht]
      · have ht' : isCodeTruncated e = false := by simpa using ht
        refine Or.inr (Or.inr ⟨hemp', by simp [hr', ht'], ?_⟩)
        simp [normalizeLLMOutput, hE, hemp', hr', ht', postRepairCandidate]

end Optima

namespace Optima

/-! ### Claims C1, C2, C3, C9 -/

/-- C1: for every input, if the returned `OptimizationResult` has
`_parsed = false` then its `optimized_code` is exactly the original code,
its `confidence` is 0, its `_no_change` is true, and its `_parse_warning`
is a non-empty string recording the rejection reason. -/
theorem claim_C1 (rawText originalCode : String) (analysis : StaticAnalysis)
    (language : Option String)
    (h : (normalizeLLMOutput rawText originalCode analysis language)._parsed = false) :
    (normalizeLLMOutput rawText originalCode analysis language).optimized_code = originalCode ∧
    (normalizeLLMOutput rawText originalCode analysis language).confidence = 0 ∧
    (normalizeLLMOutput rawText originalCode analysis language)._no_change = true ∧
    ∃ w, (normalizeLLMOutput rawText originalCode analysis language)._parse_warning = some w ∧
      w ≠ "" := by
  cases hE : extractCode rawText with
  | none =>
    have heq : normalizeLLMOutput rawText originalCode analysis language =
        makeFallback originalCode (effLang language analysis == "C") analysis extractFailWarn := by
      simp [normalizeLLMOutput, hE]
    rw [heq]
    exact ⟨rfl, rfl, rfl, extractFailWarn, rfl, by decide⟩
  | some e =>
    rcases normalize_cases rawText originalCode analysis language e hE with
      ⟨_, heq⟩ | ⟨_, _, _, heq⟩ | ⟨_, _, heq⟩
    · rw [heq]
      exact ⟨rfl, rfl, rfl, extractFailWarn, rfl, by decide⟩
    · rw [heq]
      exact ⟨rfl, rfl, rfl, truncFallbackWarn, rfl, by decide⟩
    · rw [heq] at h ⊢
      rcases step3_cases (postRepairCandidate e) _ originalCode analysis _ with
        ⟨w, hw, hcases⟩ | ⟨hp, _⟩
      · rw [hw]
        refine ⟨rfl, rfl, rfl, w, rfl, ?_⟩
        rcases hcases with rfl | ⟨parts, rfl⟩ | rfl
        · exact sizeWarn_ne_empty _ _
        · exact elemWarn_ne_empty _
        · exact simWarn_ne_empty _
      · rw [hp] at h
        exact absurd h (by simp)

/-- Claim C1 witness: the empty raw output falls back, preserving the
original code with confidence 0 and a non-empty warning. -/
theorem claim_C1_witness :
    (normalizeLLMOutput "" "x = 1" sampleAnalysis none).optimized_code = "x = 1" ∧
    (normalizeLLMOutput "" "x = 1" sampleAnalysis none).confidence = 0 ∧
    (normalizeLLMOutput "" "x = 1" sampleAnalysis none)._no_change = true ∧
    ∃ w, (normalizeLLMOutput "" "x = 1" sampleAnalysis none)._parse_warning = some w ∧ w ≠ "" :=
  claim_C1 "" "x = 1" sampleAnalysis none (by decide)

/-- C2 counterexample: on the empty string the claim fails — extraction
fails, so the fallback result has confidence 0, not 100. -/
theorem claim_C2_counterexample :
    ¬ ((normalizeLLMOutput "" "" sampleAnalysis none)._no_change = true ∧
       (normalizeLLMOutput "" "" sampleAnalysis none).confidence = 100) := by
  decide

/-- C2 (amended): for every string `X` that the extractor returns
unchanged and that triggers neither the truncation marker nor a bracket
repair, `normalizeLLMOutput X X analysis` yields `_no_change = true` and
`confidence = 100`. -/
theorem claim_C2 (X : String) (analysis : StaticAnalysis) (language : Option String)
    (h1 : extractCode X = some X) (h2 : isCodeTruncated X = false)
    (h3 : (repairTruncatedCode X).wasRepaired = false) :
    (normalizeLLMOutput X X analysis language)._no_change = true ∧
    (normalizeLLMOutput X X analysis language).confidence = 100 := by
  have hXne : X ≠ "" := extractCode_ne_empty X X h1
  have hemp : X.data.isEmpty = false := by
    cases hd : X.data with
    | nil => exact absurd (string_eq_empty_of_data_isEmpty X (by rw [hd]; rfl)) hXne
    | cons a as => rfl
  have heq : normalizeLLMOutput X X analysis language =
      normalizeStep3 X none X analysis (effLang language analysis == "C") := by
    simp [normalizeLLMOutput, h1, hemp, h2, h3]
  rw [heq]
  have hsize : sizeTooSmallB X X = false := by
    unfold sizeTooSmallB
    by_cases hm : 0 < countMeaningfulLines X
    · simp only [hm, if_true]
      split
      · simp
        omega
      · split
        · simp
          omega
        · simp
          omega
    · simp [hm]
  have hmiss : missingPartsOf X X = [] := by
    unfold missingPartsOf
    rw [validateElementPreservation_self]
    simp
  have hsim : calculateCodeSimilarity X X = 100 := by
    apply calculateCodeSimilarity_self
    rw [extractCode_isTrimmed X X h1]
    exact extractCode_ne_empty X X h1
  simp [normalizeStep3, hsize, hmiss, hsim]

/-- Claim C2 witness at a concrete no-change input. -/
theorem claim_C2_witness :
    (normalizeLLMOutput "const a = 1;" "const a = 1;" sampleAnalysis none)._no_change = true ∧
    (normalizeLLMOutput "const a = 1;" "const a = 1;" sampleAnalysis none).confidence = 100 :=
  claim_C2 "const a = 1;" sampleAnalysis none (by decide) (by decide) (by decide)

/-- C3 counterexample: the claimed edit script (removed "b" before added
"x") is not what `computeDiff` produces. -/
theorem claim_C3_counterexample :
    computeDiff "a\nb\nc" "a\nx\nc" ≠
      [⟨.unchanged, "a", some 1, some 1⟩,
       ⟨.removed, "b", some 2, none⟩,
       ⟨.added, "x", none, some 2⟩,
       ⟨.unchanged, "c", some 3, some 3⟩] := by
  decide

/-- C3 (amended): `computeDiff "a\nb\nc" "a\nx\nc"` yields the 4-entry
script unchanged "a" (1,1), added "x" (null,2), removed "b" (2,null),
unchanged "c" (3,3) — the addition is emitted before the removal — and
`computeDiffStats` on it reports added=1, removed=1, unchanged=2,
changePercent=50. -/
theorem claim_C3 :
    computeDiff "a\nb\nc" "a\nx\nc" =
      [⟨.unchanged, "a", some 1, some 1⟩,
       ⟨.added, "x", none, some 2⟩,
       ⟨.removed, "b", some 2, none⟩,
       ⟨.unchanged, "c", some 3, some 3⟩] ∧
    computeDiffStats (computeDiff "a\nb\nc" "a\nx\nc") = ⟨1, 1, 2, 50⟩ := by
  decide

/-- C9 counterexample: `" "` is a non-empty string whose lines are all
under 10 characters, yet its self-similarity is 0, not 100 (the blank-line
filter leaves no lines and the guard returns 0). -/
theorem claim_C9_counterexample :
    (" " : String) ≠ "" ∧ (∀ l ∈ splitLines " ", l.data.length < 10) ∧
    calculateCodeSimilarity " " " " ≠ 100 := by
  decide

/-- C9 (amended): for every `X` whose trimmed text is non-empty (i.e. `X`
has at least one non-blank line), `calculateCodeSimilarity X X = 100`. -/
theorem claim_C9 (X : String) (h : jsTrim X ≠ "") : calculateCodeSimilarity X X = 100 :=
  calculateCodeSimilarity_self X h

/-- Claim C9 witness. -/
theorem claim_C9_witness : calculateCodeSimilarity "ab" "ab" = 100 :=
  claim_C9 "ab" (by decide)

end Optima

namespace Optima

/-! ### Scanner lemmas and claim C4 -/

theorem ws_not_quote (c : Char) (h : jsWs c = true) : isQuote c = false := by
  simp only [jsWs, Bool.or_eq_true, beq_iff_eq] at h
  rcases h with ((((rfl | rfl) | rfl) | rfl) | rfl) | rfl <;> decide

theorem ws_not_opener (c : Char) (h : jsWs c = true) : openerCloser c = none := by
  simp only [jsWs, Bool.or_eq_true, beq_iff_eq] at h
  rcases h with ((((rfl | rfl) | rfl) | rfl) | rfl) | rfl <;> decide

theorem ws_not_closer (c : Char) (h : jsWs c = true) : isCloser c = false := by
  simp only [jsWs, Bool.or_eq_true, beq_iff_eq] at h
  rcases h with ((((rfl | rfl) | rfl) | rfl) | rfl) | rfl <;> decide

theorem closer_not_quote (c : Char) (h : isCloser c = true) : isQuote c = false := by
  simp only [isCloser, Bool.or_eq_true, beq_iff_eq] at h
  rcases h with (rfl | rfl) | rfl <;> decide

theorem closer_not_opener (c : Char) (h : isCloser c = true) : openerCloser c = none := by
  simp only [isCloser, Bool.or_eq_true, beq_iff_eq] at h
  rcases h with (rfl | rfl) | rfl <;> decide

theorem openerCloser_closer (c cl : Char) (h : openerCloser c = some cl) :
    isCloser cl = true := by
  unfold openerCloser at h
  split_ifs at h <;> simp_all <;> subst h <;> decide

/-- The scanner's string-literal state machine only records quote
characters as `stringChar`. -/
theorem scanStep_quoteInv (st : ScanSt) (c : Char)
    (h : st.inString = true → isQuote st.stringChar = true) :
    (scanStep st c).inString = true → isQuote (scanStep st c).stringChar = true := by
  unfold scanStep
  by_cases h1 : (!st.inString && isQuote c) = true
  · rw [if_pos h1]
    intro _
    have h1' : (!st.inString) = true ∧ isQuote c = true := by simpa using h1
    exact h1'.2
  · rw [if_neg h1]
    by_cases h2 : (st.inString && c == st.stringChar && st.prev != some bslash) = true
    · rw [if_pos h2]
      intro hc
      exact absurd hc (by simp)
    · rw [if_neg h2]
      by_cases h3 : (!st.inString) = true
      · rw [if_pos h3]
        split
        · intro hc
          exact h hc
        · split
          · split
            · intro hc
              exact h hc
            · intro hc
              exact h hc
          · intro hc
            exact h hc
      · rw [if_neg h3]
        intro hc
        exact h hc

/-- The stack only ever holds closing brackets. -/
theorem scanStep_stack_closers (st : ScanSt) (c : Char)
    (h : ∀ x ∈ st.stack, isCloser x = true) :
    ∀ x ∈ (scanStep st c).stack, isCloser x = true := by
  unfold scanStep
  by_cases h1 : (!st.inString && isQuote c) = true
  · rw [if_pos h1]
    simpa using h
  · rw [if_neg h1]
    by_cases h2 : (st.inString && c == st.stringChar && st.prev != some bslash) = true
    · rw [if_pos h2]
      simpa using h
    · rw [if_neg h2]
      by_cases h3 : (!st.inString) = true
      · rw [if_pos h3]
        split
        · next cl heq =>
          intro x hx
          simp only [List.mem_cons] at hx
          rcases hx with rfl | hx
          · exact openerCloser_closer c x heq
          · exact h x hx
        · split
          · next top rest heq =>
            split
            · intro x hx
              simp only [] at hx
              exact h x (by rw [heq]; exact List.mem_cons_of_mem _ hx)
            · simpa using h
          · simpa using h
      · rw [if_neg h3]
        simpa using h

/-- A whitespace character leaves `inString`, `stringChar` and the stack
unchanged (given the quote invariant). -/
theorem scanStep_ws (st : ScanSt) (c : Char) (hws : jsWs c = true)
    (hq : st.inString = true → isQuote st.stringChar = true) :
    (scanStep st c).inString = st.inString ∧ (scanStep st c).stringChar = st.stringChar ∧
    (scanStep st c).stack = st.stack := by
  have hquote : isQuote c = false := ws_not_quote c hws
  have hopen : openerCloser c = none := ws_not_opener c hws
  have hclose : isCloser c = false := ws_not_closer c hws
  unfold scanStep
  have h1 : (!st.inString && isQuote c) = false := by simp [hquote]
  rw [if_neg (by simp [h1])]
  by_cases hin : st.inString = true
  · have hne : (c == st.stringChar) = false := by
      cases hb : c == st.stringChar
      · rfl
      · exfalso
        have hc : c = st.stringChar := by simpa using hb
        have := hq hin
        rw [← hc, hquote] at this
        exact Bool.noConfusion this
    rw [if_neg (by simp [hne])]
    rw [if_neg (by simp [hin])]
    exact ⟨rfl, rfl, rfl⟩
  · have hin' : st.inString = false := by simpa using hin
    rw [if_neg (by simp [hin'])]
    rw [if_pos (by simp [hin'])]
    cases hs : st.stack with
    | nil =>
      simp [hopen, hs]
    | cons top rest =>
      simp only [hopen, hs]
      rw [if_neg (by simp [hclose])]
      exact ⟨rfl, rfl, hs⟩

theorem scanList_cons (c : Char) (l : List Char) (st : ScanSt) :
    scanList (c :: l) st = scanList l (scanStep st c) := rfl

theorem scanList_append_eq (l₁ l₂ : List Char) (st : ScanSt) :
    scanList (l₁ ++ l₂) st = scanList l₂ (scanList l₁ st) :=
  List.foldl_append _ _ _ _

theorem scanList_quoteInv (l : List Char) (st : ScanSt)
    (h : st.inString = true → isQuote st.stringChar = true) :
    (scanList l st).inString = true → isQuote (scanList l st).stringChar = true := by
  induction l generalizing st with
  | nil => exact h
  | cons c t ih => exact ih _ (scanStep_quoteInv st c h)

theorem scanList_stack_closers (l : List Char) (st : ScanSt)
    (h : ∀ x ∈ st.stack, isCloser x = true) :
    ∀ x ∈ (scanList l st).stack, isCloser x = true := by
  induction l generalizing st with
  | nil => exact h
  | cons c t ih => exact ih _ (scanStep_stack_closers st c h)

theorem scanList_ws (w : List Char) (st : ScanSt) (hw : ∀ c ∈ w, jsWs c = true)
    (hq : st.inString = true → isQuote st.stringChar = true) :
    (scanList w st).inString = st.inString ∧ (scanList w st).stringChar = st.stringChar ∧
    (scanList w st).stack = st.stack := by
  induction w generalizing st with
  | nil => exact ⟨rfl, rfl, rfl⟩
  | cons c t ih =>
    have hws : jsWs c = true := hw c (by simp)
    obtain ⟨h1, h2, h3⟩ := scanStep_ws st c hws hq
    have hq' : (scanStep st c).inString = true → isQuote (scanStep st c).stringChar = true :=
      scanStep_quoteInv st c hq
    obtain ⟨g1, g2, g3⟩ := ih (scanStep st c) (fun x hx => hw x (by simp [hx])) hq'
    rw [scanList_cons]
    exact ⟨g1.trans h1, g2.trans h2, g3.trans h3⟩

/-- Scanning one closing bracket that matches the top of the stack pops it. -/
theorem scanStep_pop (st : ScanSt) (c : Char) (rest : List Char)
    (hin : st.inString = false) (hst : st.stack = c :: rest) (hc : isCloser c = true) :
    (scanStep st c).inString = false ∧ (scanStep st c).stack = rest := by
  have hq : isQuote c = false := closer_not_quote c hc
  have ho : openerCloser c = none := closer_not_opener c hc
  unfold scanStep
  simp [hin, hq, ho, hst, hc]

/-- Scanning the appended closer lines (`stack.reverse().join('\n')`)
empties the stack and stays outside any literal. -/
theorem scan_closers (S : List Char) (st : ScanSt) (hin : st.inString = false)
    (hst : st.stack = S) (hcl : ∀ x ∈ S, isCloser x = true) :
    (scanList (S.intersperse '\n') st).stack = [] := by
  induction S generalizing st with
  | nil => simpa [scanList, List.intersperse] using hst
  | cons c S' ih =>
    have hc : isCloser c = true := hcl c (by simp)
    cases S' with
    | nil =>
      have := scanStep_pop st c [] hin hst hc
      simp [List.intersperse, scanList_cons, scanList]
      exact this.2
    | cons c2 S'' =>
      obtain ⟨g1, g2⟩ := scanStep_pop st c (c2 :: S'') hin hst hc
      have hq' : (scanStep st c).inString = true → isQuote (scanStep st c).stringChar = true := by
        intro hcc
        rw [g1] at hcc
        exact Bool.noConfusion hcc
      obtain ⟨w1, _, w3⟩ := scanStep_ws (scanStep st c) '\n' (by decide) hq'
      have : List.intersperse '\n' (c :: c2 :: S'') =
          c :: '\n' :: List.intersperse '\n' (c2 :: S'') := rfl
      rw [this, scanList_cons, scanList_cons]
      exact ih (scanStep (scanStep st c) '\n') (w1.trans g1) (w3.trans g2)
        (fun x hx => hcl x (by simp [hx]))

/-- C4 counterexample: on the input `("` the scanner ends inside an
unterminated string literal; the appended closer lands inside that
literal, so re-scanning the repaired output still reports an unbalanced
stack. -/
theorem claim_C4_counterexample :
    (repairTruncatedCode "(\"").wasRepaired = true ∧
    (repairTruncatedCode (repairTruncatedCode "(\"").repaired).wasRepaired = true := by
  decide

/-- C4 (amended): if `repairTruncatedCode` reports `wasRepaired = true`
and the scan of the input ends outside a string literal, then re-scanning
its repaired output leaves an empty bracket stack — running
`repairTruncatedCode` on the repaired output reports `wasRepaired = false`. -/
theorem claim_C4 (code : String)
    (h1 : (repairTruncatedCode code).wasRepaired = true)
    (h2 : (scanCode code).inString = false) :
    (repairTruncatedCode (repairTruncatedCode code).repaired).wasRepaired = false := by
  have hempty : (scanCode code).stack.isEmpty = false := by
    simp only [repairTruncatedCode] at h1
    split at h1
    · exact absurd h1 (by simp)
    · next hne => simpa using hne
  have hrep : (repairTruncatedCode code).repaired =
      jsTrimEnd code ++ "\n" ++ ⟨(scanCode code).stack.intersperse '\n'⟩ := by
    simp only [repairTruncatedCode]
    rw [if_neg (by simp [hempty])]
  have hdata : (repairTruncatedCode code).repaired.data =
      trimEndL code.data ++ ('\n' :: (scanCode code).stack.intersperse '\n') := by
    rw [hrep, data_append, data_append]
    show (trimEndL code.data ++ ['\n']) ++ _ = _
    rw [List.append_assoc]
    rfl
  -- the state after scanning the trimmed prefix agrees with the full scan
  have hdecomp := trimEnd_decomp code.data
  have hquote0 : (⟨false, ' ', none, []⟩ : ScanSt).inString = true →
      isQuote (⟨false, ' ', none, []⟩ : ScanSt).stringChar = true := by
    intro hc
    exact Bool.noConfusion hc
  have hq1 : (scanList (trimEndL code.data) ⟨false, ' ', none, []⟩).inString = true →
      isQuote (scanList (trimEndL code.data) ⟨false, ' ', none, []⟩).stringChar = true :=
    scanList_quoteInv _ _ hquote0
  have hws := scanList_ws ((code.data.reverse.takeWhile jsWs).reverse)
    (scanList (trimEndL code.data) ⟨false, ' ', none, []⟩)
    (trimEnd_suffix_ws code.data) hq1
  have hfull : scanCode code =
      scanList ((code.data.reverse.takeWhile jsWs).reverse)
        (scanList (trimEndL code.data) ⟨false, ' ', none, []⟩) := by
    unfold scanCode
    conv_lhs => rw [← hdecomp]
    rw [scanList_append_eq]
  have hin1 : (scanList (trimEndL code.data) ⟨false, ' ', none, []⟩).inString = false := by
    rw [hfull] at h2
    rw [← hws.1]
    exact h2
  have hst1 : (scanList (trimEndL code.data) ⟨false, ' ', none, []⟩).stack =
      (scanCode code).stack := by
    rw [hfull]
    exact hws.2.2.symm
  have hclosers : ∀ x ∈ (scanCode code).stack, isCloser x = true := by
    intro x hx
    exact scanList_stack_closers code.data ⟨false, ' ', none, []⟩ (by simp) x hx
  -- scan of the repaired text
  have hscanrep : (scanCode (repairTruncatedCode code).repaired).stack = [] := by
    unfold scanCode
    rw [hdata, scanList_append_eq, scanList_cons]
    have hq2 : (scanList (trimEndL code.data) ⟨false, ' ', none, []⟩).inString = true →
        isQuote (scanList (trimEndL code.data) ⟨false, ' ', none, []⟩).stringChar = true := hq1
    obtain ⟨n1, _, n3⟩ := scanStep_ws (scanList (trimEndL code.data) ⟨false, ' ', none, []⟩)
      '\n' (by decide) hq2
    exact scan_closers (scanCode code).stack _ (n1.trans hin1) (n3.trans hst1) hclosers
  set R := (repairTruncatedCode code).repaired with hR
  simp only [repairTruncatedCode]
  rw [if_pos (by simp [hscanrep])]

/-- Claim C4 witness: an unbalanced opener outside any string literal is
repaired, and the repaired text re-scans clean. -/
theorem claim_C4_witness :
    (repairTruncatedCode "f(x").wasRepaired = true ∧
    (scanCode "f(x").inString = false ∧
    (repairTruncatedCode (repairTruncatedCode "f(x").repaired).wasRepaired = false :=
  ⟨by decide, by decide, claim_C4 "f(x" (by decide) (by decide)⟩

end Optima

namespace Optima

/-! ### Diff-script invariants and claim C5 -/

theorem emitOps_sideOk (a b : List String) (ops : List DiffOp) (n m : Nat) :
    ∀ e ∈ emitOps a b ops n m, sideOk e := by
  induction ops generalizing n m with
  | nil => simp [emitOps]
  | cons op rest ih =>
    intro e he
    rw [emitOps] at he
    repeat' split at he
    all_goals rcases List.mem_cons.mp he with rfl | he'
    all_goals first
      | exact ih _ _ e he'
      | simp [sideOk]

theorem emitOps_orig_lb (a b : List String) (ops : List DiffOp) (n m : Nat) :
    ∀ e ∈ emitOps a b ops n m, ∀ x, e.originalLineNo = some x → n ≤ x := by
  induction ops generalizing n m with
  | nil => simp [emitOps]
  | cons op rest ih =>
    intro e he x hx
    rw [emitOps] at he
    repeat' split at he
    all_goals rcases List.mem_cons.mp he with rfl | he'
    all_goals first
      | exact ih _ _ e he' x hx
      | exact Nat.le_of_succ_le (ih _ _ e he' x hx)
      | (simp at hx; try omega)

theorem emitOps_new_lb (a b : List String) (ops : List DiffOp) (n m : Nat) :
    ∀ e ∈ emitOps a b ops n m, ∀ x, e.newLineNo = some x → m ≤ x := by
  induction ops generalizing n m with
  | nil => simp [emitOps]
  | cons op rest ih =>
    intro e he x hx
    rw [emitOps] at he
    repeat' split at he
    all_goals rcases List.mem_cons.mp he with rfl | he'
    all_goals first
      | exact ih _ _ e he' x hx
      | exact Nat.le_of_succ_le (ih _ _ e he' x hx)
      | (simp at hx; try omega)

theorem emitOps_pairwise_orig (a b : List String) (ops : List DiffOp) (n m : Nat) :
    (emitOps a b ops n m).Pairwise origLt := by
  induction ops generalizing n m with
  | nil => simp [emitOps]
  | cons op rest ih =>
    rw [emitOps]
    repeat' split
    all_goals refine List.Pairwise.cons ?_ (ih _ _)
    all_goals intro e' he' x y hx hy
    all_goals simp at hx
    all_goals (have hlb := emitOps_orig_lb a b rest _ _ e' he' y hy; omega)

theorem emitOps_pairwise_new (a b : List String) (ops : List DiffOp) (n m : Nat) :
    (emitOps a b ops n m).Pairwise newLt := by
  induction ops generalizing n m with
  | nil => simp [emitOps]
  | cons op rest ih =>
    rw [emitOps]
    repeat' split
    all_goals refine List.Pairwise.cons ?_ (ih _ _)
    all_goals intro e' he' x y hx hy
    all_goals simp at hx
    all_goals (have hlb := emitOps_new_lb a b rest _ _ e' he' y hy; omega)

/-- When an input side exceeds the 300-line cap the synthetic elided entry
is appended: an `unchanged` entry with null line numbers. -/
theorem diffLinesIterative_oversize (a b : List String) (h : 300 < a.length) :
    ∃ e ∈ diffLinesIterative a b,
      e.type = DiffType.unchanged ∧ e.originalLineNo = none := by
  simp only [diffLinesIterative]
  rw [if_pos (Or.inl h)]
  refine ⟨⟨.unchanged,
    "... (" ++ toString (max a.length b.length - 300) ++ " more lines not shown in diff)",
    none, none⟩, List.mem_append_right _ (by simp), rfl, rfl⟩

set_option maxRecDepth 40000 in
/-- C5 counterexample: on a 301-line input the appended synthetic entry is
`unchanged` with a null `originalLineNo`, violating the claimed iff. -/
theorem claim_C5_counterexample :
    ¬ (∀ e ∈ computeDiff oversizeInput oversizeInput, sideOk e) := by
  intro h
  obtain ⟨e, he, hty, hor⟩ :=
    diffLinesIterative_oversize (splitLines oversizeInput) (splitLines oversizeInput)
      (by decide)
  have hs := h e he
  exact (hs.1.mpr (Or.inr hty)) hor

/-- C5 (amended): for inputs of at most 300 lines each (so the synthetic
elided entry is absent), every entry of `computeDiff` has
`originalLineNo` non-null iff it is removed or unchanged and `newLineNo`
non-null iff it is added or unchanged, and the non-null line numbers on
each side are 1-based and strictly increasing across the sequence. -/
theorem claim_C5 (s t : String)
    (hs : (splitLines s).length ≤ 300) (ht : (splitLines t).length ≤ 300) :
    (∀ e ∈ computeDiff s t, sideOk e ∧ (∀ x, e.originalLineNo = some x → 1 ≤ x) ∧
      (∀ x, e.newLineNo = some x → 1 ≤ x)) ∧
    (computeDiff s t).Pairwise origLt ∧ (computeDiff s t).Pairwise newLt := by
  simp only [computeDiff, diffLinesIterative]
  rw [if_neg (by push_neg; omega)]
  refine ⟨fun e he => ⟨emitOps_sideOk _ _ _ _ _ e he,
    fun x hx => emitOps_orig_lb _ _ _ _ _ e he x hx,
    fun x hx => emitOps_new_lb _ _ _ _ _ e he x hx⟩,
    emitOps_pairwise_orig _ _ _ _ _, emitOps_pairwise_new _ _ _ _ _⟩

/-- Claim C5 witness at a concrete two-line diff. -/
theorem claim_C5_witness :
    (∀ e ∈ computeDiff "a\nb" "a\nc", sideOk e ∧ (∀ x, e.originalLineNo = some x → 1 ≤ x) ∧
      (∀ x, e.newLineNo = some x → 1 ≤ x)) ∧
    (computeDiff "a\nb" "a\nc").Pairwise origLt ∧ (computeDiff "a\nb" "a\nc").Pairwise newLt :=
  claim_C5 "a\nb" "a\nc" (by decide) (by decide)

end Optima

namespace Optima

/-! ### Claims C6, C10 and C7 -/

/-- C6: on the accepted (non-fallback) path, `confidence` is 100 on a
no-change result, else `round(confidence_score × 100)`, capped in order to
70 for the conservative C target when a change was made, to 60 when the
similarity score is below 80, and to 50 when a bracket repair occurred. -/
theorem claim_C6 (rawText originalCode : String) (analysis : StaticAnalysis)
    (language : Option String) (e : String)
    (hE : extractCode rawText = some e)
    (hp : (normalizeLLMOutput rawText originalCode analysis language)._parsed = true) :
    (normalizeLLMOutput rawText originalCode analysis language).confidence =
      confFormula (normalizeCode (postRepairCandidate e) == normalizeCode originalCode)
        (effLang language analysis == "C") analysis.confidence_score
        (calculateCodeSimilarity originalCode (postRepairCandidate e))
        (repairTruncatedCode e).wasRepaired := by
  rcases normalize_cases rawText originalCode analysis language e hE with
    ⟨_, heq⟩ | ⟨_, _, _, heq⟩ | ⟨_, _, heq⟩
  · rw [heq] at hp
    exact absurd hp (by simp [makeFallback])
  · rw [heq] at hp
    exact absurd hp (by simp [makeFallback])
  · rw [heq] at hp ⊢
    rcases step3_cases (postRepairCandidate e) _ originalCode analysis _ with
      ⟨w, hw, _⟩ | ⟨_, _, _, _, hconf⟩
    · rw [hw] at hp
      exact absurd hp (by simp [makeFallback])
    · rw [hconf]
      cases hrr : (repairTruncatedCode e).wasRepaired <;> simp [hrr]

/-- Claim C6 witness on an accepted no-change input. -/
theorem claim_C6_witness :
    (normalizeLLMOutput "const a = 1;" "const a = 1;" sampleAnalysis none).confidence =
      confFormula
        (normalizeCode (postRepairCandidate "const a = 1;") == normalizeCode "const a = 1;")
        (effLang none sampleAnalysis == "C") sampleAnalysis.confidence_score
        (calculateCodeSimilarity "const a = 1;" (postRepairCandidate "const a = 1;"))
        (repairTruncatedCode "const a = 1;").wasRepaired :=
  claim_C6 "const a = 1;" "const a = 1;" sampleAnalysis none "const a = 1;"
    (by decide) (by decide)

/-- C10: after a successful extraction, the result carries the
truncated-and-could-not-be-repaired warning exactly when the candidate is
flagged as truncated and its bracket scan leaves an empty stack
(`wasRepaired = false`); when the scan leaves a non-empty stack the
closers are appended and the pipeline continues — an accepted result then
carries the repaired-output warning instead. -/
theorem claim_C10 (rawText originalCode : String) (analysis : StaticAnalysis)
    (language : Option String) (e : String)
    (hE : extractCode rawText = some e) :
    ((normalizeLLMOutput rawText originalCode analysis language)._parse_warning =
        some truncFallbackWarn ↔
      (isCodeTruncated e = true ∧ (repairTruncatedCode e).wasRepaired = false)) ∧
    ((repairTruncatedCode e).wasRepaired = true →
      (normalizeLLMOutput rawText originalCode analysis language)._parsed = true →
      (normalizeLLMOutput rawText originalCode analysis language)._parse_warning =
        some repairWarn) := by
  rcases normalize_cases rawText originalCode analysis language e hE with
    ⟨hemp, heq⟩ | ⟨_, ht, hr, heq⟩ | ⟨_, hnt, heq⟩
  · have he0 : e = "" := string_eq_empty_of_data_isEmpty e hemp
    rw [heq]
    refine ⟨⟨fun hw => absurd (Option.some.inj hw) extractFailWarn_ne_trunc, fun hc => ?_⟩, ?_⟩
    · rw [he0] at hc
      exact absurd hc.1 (by decide)
    · intro hrep _
      rw [he0] at hrep
      exact absurd hrep (by decide)
  · rw [heq]
    refine ⟨⟨fun _ => ⟨ht, hr⟩, fun _ => rfl⟩, ?_⟩
    intro hrep _
    rw [hr] at hrep
    exact Bool.noConfusion hrep
  · rw [heq]
    have warnchar := step3_cases (postRepairCandidate e)
      (if (repairTruncatedCode e).wasRepaired then some repairWarn else none)
      originalCode analysis (effLang language analysis == "C")
    constructor
    · constructor
      · intro hw
        exfalso
        rcases warnchar with ⟨w, hmk, hcase⟩ | ⟨_, hpw, _, _, _⟩
        · rw [hmk] at hw
          have hww : w = truncFallbackWarn := by simpa [makeFallback] using hw
          rcases hcase with rfl | ⟨parts, rfl⟩ | rfl
          · exact sizeWarn_ne_trunc _ _ hww
          · exact elemWarn_ne_trunc _ hww
          · exact simWarn_ne_trunc _ hww
        · rw [hpw] at hw
          by_cases hrr : (repairTruncatedCode e).wasRepaired = true
          · rw [if_pos hrr] at hw
            exact repairWarn_ne_trunc (Option.some.inj hw)
          · rw [if_neg hrr] at hw
            exact Option.noConfusion hw
      · intro hc
        exact absurd hc hnt
    · intro hrep hparsed
      rcases warnchar with ⟨w, hmk, _⟩ | ⟨_, hpw, _, _, _⟩
      · rw [hmk] at hparsed
        exact absurd hparsed (by simp [makeFallback])
      · rw [hpw, if_pos hrep]

/-- Claim C10 witness: the bare block keyword `for` is flagged as
truncated, its bracket scan is balanced, and the result is exactly the
truncated-unrepairable fallback. -/
theorem claim_C10_witness :
    ((normalizeLLMOutput "for" "x" sampleAnalysis none)._parse_warning =
        some truncFallbackWarn ↔
      (isCodeTruncated "for" = true ∧ (repairTruncatedCode "for").wasRepaired = false)) ∧
    ((repairTruncatedCode "for").wasRepaired = true →
      (normalizeLLMOutput "for" "x" sampleAnalysis none)._parsed = true →
      (normalizeLLMOutput "for" "x" sampleAnalysis none)._parse_warning = some repairWarn) :=
  claim_C10 "for" "x" sampleAnalysis none "for" (by decide)

/-- The cross-multiplied integer size check agrees with the rational
ratio-below-threshold statement of the spec. -/
theorem sizeTooSmallB_iff (orig cand : String) :
    sizeTooSmallB orig cand = true ↔ sizeCheckFails orig cand := by
  simp only [sizeTooSmallB, sizeCheckFails]
  by_cases h0 : 0 < countMeaningfulLines orig
  · rw [if_pos h0, if_pos h0]
    have hm : (0 : ℚ) < countMeaningfulLines orig := by exact_mod_cast h0
    by_cases h10 : countMeaningfulLines orig ≤ 10
    · rw [if_pos h10, if_pos h10, decide_eq_true_eq,
        div_lt_div_iff₀ hm (by norm_num : (0:ℚ) < 10), one_mul, Nat.mul_one]
      exact_mod_cast Iff.rfl
    · rw [if_neg h10, if_neg h10]
      by_cases h40 : countMeaningfulLines orig ≤ 40
      · rw [if_pos h40, if_pos h40, decide_eq_true_eq,
          div_lt_div_iff₀ hm (by norm_num : (0:ℚ) < 10), mul_comm (3:ℚ)]
        exact_mod_cast Iff.rfl
      · rw [if_neg h40, if_neg h40, decide_eq_true_eq,
          div_lt_div_iff₀ hm (by norm_num : (0:ℚ) < 5), mul_comm (2:ℚ)]
        exact_mod_cast Iff.rfl
  · rw [if_neg h0, if_neg h0]
    constructor
    · intro h
      exact absurd h (by simp)
    · intro h
      split_ifs at h <;> norm_num at h

theorem step3_size_pos (ext : String) (pw : Option String) (orig : String)
    (analysis : StaticAnalysis) (isC : Bool) (h : sizeTooSmallB orig ext = true) :
    normalizeStep3 ext pw orig analysis isC =
      makeFallback orig isC analysis
        (sizeWarn (countMeaningfulLines ext) (countMeaningfulLines orig)) := by
  simp only [normalizeStep3]
  rw [if_pos h]

theorem step3_size_neg (ext : String) (pw : Option String) (orig : String)
    (analysis : StaticAnalysis) (isC : Bool) (h : sizeTooSmallB orig ext = false) :
    (∃ parts, (normalizeStep3 ext pw orig analysis isC)._parse_warning =
        some (elemWarn parts)) ∨
    (normalizeStep3 ext pw orig analysis isC)._parse_warning =
      some (simWarn (calculateCodeSimilarity orig ext)) ∨
    (normalizeStep3 ext pw orig analysis isC)._parse_warning = pw := by
  simp only [normalizeStep3]
  rw [if_neg (by simp [h])]
  split
  · exact Or.inl ⟨_, rfl⟩
  · split
    · exact Or.inr (Or.inl rfl)
    · exact Or.inr (Or.inr rfl)

/-- C7: after a successful extraction — the JS-falsy guard of step 1
requires the extracted candidate to be non-empty — with no truncation
fallback, the pipeline produces the size-check fallback (its warning
reporting both meaningful-line counts) exactly when the
candidate-to-original meaningful-line ratio is strictly below the
size-scaled threshold (0.10 / 0.30 / 0.40, ratio defaulting to 1 for an
empty original). -/
theorem claim_C7 (rawText originalCode : String) (analysis : StaticAnalysis)
    (language : Option String) (e : String)
    (hE : extractCode rawText = some e) (he : e ≠ "")
    (hnt : ¬(isCodeTruncated e = true ∧ (repairTruncatedCode e).wasRepaired = false)) :
    ((normalizeLLMOutput rawText originalCode analysis language)._parse_warning =
        some (sizeWarn (countMeaningfulLines (postRepairCandidate e))
          (countMeaningfulLines originalCode)) ↔
      sizeCheckFails originalCode (postRepairCandidate e)) := by
  rcases normalize_cases rawText originalCode analysis language e hE with
    ⟨hemp, _⟩ | ⟨_, ht, hr, _⟩ | ⟨_, _, heq⟩
  · exact absurd (string_eq_empty_of_data_isEmpty e hemp) he
  · exact absurd ⟨ht, hr⟩ hnt
  · rw [heq]
    by_cases hs : sizeTooSmallB originalCode (postRepairCandidate e) = true
    · rw [step3_size_pos _ _ _ _ _ hs]
      exact ⟨fun _ => (sizeTooSmallB_iff _ _).mp hs, fun _ => rfl⟩
    · have hs' : sizeTooSmallB originalCode (postRepairCandidate e) = false := by
        simpa using hs
      constructor
      · intro hw
        exfalso
        rcases step3_size_neg _ _ _ _ _ hs' with ⟨parts, hpw⟩ | hpw | hpw
        · rw [hpw] at hw
          exact elemWarn_ne_sizeWarn _ _ _ (Option.some.inj hw)
        · rw [hpw] at hw
          exact simWarn_ne_sizeWarn _ _ _ (Option.some.inj hw)
        · rw [hpw] at hw
          by_cases hrr : (repairTruncatedCode e).wasRepaired = true
          · rw [if_pos hrr] at hw
            exact repairWarn_ne_sizeWarn _ _ (Option.some.inj hw)
          · rw [if_neg hrr] at hw
            exact Option.noConfusion hw
      · intro hfail
        exact absurd ((sizeTooSmallB_iff _ _).mpr hfail) (by simp [hs'])

/-- Claim C7 witness at the boundary: a 10-meaningful-line original with a
1-meaningful-line candidate has ratio exactly 0.10, which is not strictly
below the 0.10 threshold, so the size fallback does not fire. -/
theorem claim_C7_witness :
    ((normalizeLLMOutput "a1" tenLineOriginal sampleAnalysis none)._parse_warning =
        some (sizeWarn (countMeaningfulLines (postRepairCandidate "a1"))
          (countMeaningfulLines tenLineOriginal)) ↔
      sizeCheckFails tenLineOriginal (postRepairCandidate "a1")) :=
  claim_C7 "a1" tenLineOriginal sampleAnalysis none "a1" (by decide) (by decide) (by decide)

end Optima

namespace Optima

/-! ### Extractor no-op lemmas and claim C8 -/

theorem matchCIPrefix_suffix (pat : List Char) :
    ∀ l r, matchCIPrefix pat l = some r → r <:+ l := by
  induction pat with
  | nil =>
    intro l r h
    rw [matchCIPrefix] at h
    exact (Option.some.inj h) ▸ List.suffix_refl l
  | cons c cs ih =>
    intro l r h
    cases l with
    | nil => exact Option.noConfusion h
    | cons a as =>
      rw [matchCIPrefix] at h
      split at h
      · exact (ih as r h).trans (List.suffix_cons a as)
      · exact Option.noConfusion h

theorem matchWs1_suffix (l r : List Char) (h : matchWs1 l = some r) : r <:+ l := by
  unfold matchWs1 at h
  split at h
  · split at h
    · rw [← Option.some.inj h]
      exact List.dropWhile_suffix _
    · exact Option.noConfusion h
  · exact Option.noConfusion h

theorem matchAlt_suffix (ws : List (List Char)) :
    ∀ l r, matchAlt ws l = some r → r <:+ l := by
  induction ws with
  | nil =>
    intro l r h
    rw [matchAlt] at h
    exact (Option.some.inj h) ▸ List.suffix_refl l
  | cons w ws' ih =>
    intro l r h
    rw [matchAlt] at h
    split at h
    · exact Option.noConfusion h
    · rename_i r1 hc
      split at h
      · exact (Option.some.inj h) ▸ matchCIPrefix_suffix w l r1 hc
      · split at h
        · exact Option.noConfusion h
        · rename_i hx w2 ws2 r2 hw
          exact ((ih r2 r h).trans (matchWs1_suffix r1 r2 hw)).trans
            (matchCIPrefix_suffix w l r1 hc)

theorem contAfterColon_no_nl (after : List Char) (h : ∀ c ∈ after, c ≠ '\n') :
    contAfterColon after = none := by
  cases hc : (after.takeWhile jsWs).contains '\n'
  · have hc' : '\n' ∉ after.takeWhile jsWs := by
      simpa [List.contains, List.elem_iff] using hc
    simp only [contAfterColon]
    rw [if_neg (by simpa [List.contains, List.elem_iff] using hc')]
  · exfalso
    have hmem : '\n' ∈ after.takeWhile jsWs := by
      simpa [List.contains, List.elem_iff] using hc
    have hpre : after.takeWhile jsWs <+: after := List.takeWhile_prefix _
    exact h '\n' (hpre.subset hmem) rfl

theorem tryColonsDesc_no_nl (rem : List Char) (h : ∀ c ∈ rem, c ≠ '\n') :
    ∀ ps, tryColonsDesc rem ps = none := by
  intro ps
  induction ps with
  | nil => rfl
  | cons p ps' ih =>
    rw [tryColonsDesc]
    rw [contAfterColon_no_nl _ (fun c hc => h c (List.drop_subset _ _ hc))]
    exact ih

theorem tryAlt_no_nl (alt : List (List Char)) (l : List Char) (h : ∀ c ∈ l, c ≠ '\n') :
    tryAlt alt l = none := by
  unfold tryAlt
  cases hm : matchAlt alt l with
  | none => rfl
  | some rem =>
    exact tryColonsDesc_no_nl rem
      (fun c hc => h c ((matchAlt_suffix alt l rem hm).subset hc)) _

theorem tryAlts_no_nl (alts : List (List (List Char))) (l : List Char)
    (h : ∀ c ∈ l, c ≠ '\n') : tryAlts alts l = none := by
  induction alts with
  | nil => rfl
  | cons alt rest ih =>
    rw [tryAlts, tryAlt_no_nl alt l h]
    exact ih

theorem stripPreambleL_no_nl (l : List Char) (h : ∀ c ∈ l, c ≠ '\n') :
    stripPreambleL l = l := by
  unfold stripPreambleL
  rw [tryAlts_no_nl _ _ h]

theorem fenceHead_none (l : List Char) (h : ∀ c ∈ l, c ≠ backtick) : fenceHead l = none := by
  cases hp : ("```".data.isPrefixOf l)
  · simp [fenceHead, hp]
  · exfalso
    have hpre : "```".data <+: l := by rwa [ List.isPrefixOf_iff_prefix] at hp
    have hb : backtick ∈ ("```".data : List Char) := by decide
    exact h backtick (hpre.subset hb) rfl

theorem fencedComplete_succ (fuel : Nat) (l : List Char) :
    fencedComplete (fuel + 1) l =
      match (fenceHead l).bind (fun r => beforeTriple (r.length + 1) r) with
      | some inner => some inner
      | none =>
        match l with
        | [] => none
        | _ :: rest => fencedComplete fuel rest := rfl

theorem fencedComplete_no_bt (fuel : Nat) :
    ∀ l, (∀ c ∈ l, c ≠ backtick) → fencedComplete fuel l = none := by
  induction fuel with
  | zero => intro l _; rfl
  | succ fuel ih =>
    intro l h
    rw [fencedComplete_succ, fenceHead_none l h]
    cases l with
    | nil => rfl
    | cons c rest => exact ih rest (fun x hx => h x (List.mem_cons_of_mem _ hx))

theorem fencedOpen_succ (fuel : Nat) (l : List Char) :
    fencedOpen (fuel + 1) l =
      match fenceHead l with
      | some r =>
        if r ≠ [] then some r
        else
          let run := (l.drop 3).dropWhile isWordChar |>.takeWhile jsWs
          let run' := run.dropLast
          if run'.contains '\n' then some (afterLastNl run' ++ ['\n']) else
          match l with
          | [] => none
          | _ :: rest => fencedOpen fuel rest
      | none =>
        match l with
        | [] => none
        | _ :: rest => fencedOpen fuel rest := rfl

theorem fencedOpen_no_bt (fuel : Nat) :
    ∀ l, (∀ c ∈ l, c ≠ backtick) → fencedOpen fuel l = none := by
  induction fuel with
  | zero => intro l _; rfl
  | succ fuel ih =>
    intro l h
    rw [fencedOpen_succ, fenceHead_none l h]
    cases l with
    | nil => rfl
    | cons c rest => exact ih rest (fun x hx => h x (List.mem_cons_of_mem _ hx))

theorem inlineCodeMatch_not_bt (c : Char) (rest : List Char) (h : c ≠ backtick) :
    inlineCodeMatch (c :: rest) = none := by
  have hb : (c == backtick) = false := by simpa using h
  simp [inlineCodeMatch, hb]

theorem splitNlL_no_nl (l : List Char) (h : ∀ c ∈ l, c ≠ '\n') : splitNlL l = [l] := by
  induction l with
  | nil => rfl
  | cons c rest ih =>
    rw [splitNlL]
    rw [if_neg (by simpa using h c (by simp))]
    rw [ih (fun x hx => h x (by simp [hx]))]

theorem looksLikeProse_brace (rest : List Char) : looksLikeProse ('{' :: rest) = false := by
  simp [looksLikeProse, proseShape, isAsciiUpper]

theorem rawTextStrategy_id (s : String) (h1 : jsTrim s = s) (h2 : s ≠ "")
    (hnl : ∀ c ∈ s.data, c ≠ '\n') (hprose : looksLikeProse (jsTrim s).data = false) :
    rawTextStrategy s = some s := by
  have hdne : s.data ≠ [] := fun hh => h2 (String.ext (by simp [hh]))
  have hie : (jsTrim s).data.isEmpty = false := by
    rw [h1]
    cases hs : s.data with
    | nil => exact absurd hs hdne
    | cons a b => rfl
  have hmk : (⟨s.data⟩ : String) = s := by cases s; rfl
  have hsplit : splitLines s = [s] := by
    unfold splitLines
    rw [splitNlL_no_nl s.data hnl]
    simp [hmk]
  simp only [rawTextStrategy, hsplit]
  have hpred : (!(jsTrim s).data.isEmpty && !looksLikeProse (jsTrim s).data) = true := by
    rw [hie, hprose]
    rfl
  rw [List.filter_cons_of_pos (by simpa using hpred)]
  rw [List.filter_nil]
  have hjoin : joinNl [s] = s := rfl
  rw [hjoin, h1, if_neg (by simp [List.isEmpty_iff]; exact hdne)]

/-- C8 counterexample: a raw text that is a data object with an
`optimized_code` field is returned verbatim by `extractCode` — no object
parsing or unescaping happens, so the field value `"a\nb"` is never
produced. -/
theorem claim_C8_counterexample :
    extractCode "\x7b\"optimized_code\": \"a\\nb\"\x7d" =
      some "\x7b\"optimized_code\": \"a\\nb\"\x7d" ∧
    extractCode "\x7b\"optimized_code\": \"a\\nb\"\x7d" ≠ some "a\nb" := by
  constructor
  · decide
  · decide

/-- C8 (amended): `extractCode` has no data-object parsing strategy; a
trimmed single-line text that begins with a structural object marker and
contains an `optimized_code` field (and no backtick) is handed to the
raw-text strategy and returned verbatim, escape sequences intact. -/
theorem claim_C8 (s : String) (h1 : jsTrim s = s) (h2 : s ≠ "")
    (hnl : ∀ c ∈ s.data, c ≠ '\n') (hbt : ∀ c ∈ s.data, c ≠ backtick)
    (hhead : s.data.head? = some '{')
    (hfield : containsSub s.data "optimized_code".data = true) :
    extractCode s = some s := by
  obtain ⟨rest, hs⟩ : ∃ rest, s.data = '{' :: rest := by
    cases hd : s.data with
    | nil => rw [hd] at hhead; exact Option.noConfusion hhead
    | cons a b =>
      rw [hd] at hhead
      exact ⟨b, by rw [Option.some.inj hhead]⟩
  have hdne : s.data ≠ [] := by rw [hs]; simp
  have hie : (jsTrim s).data.isEmpty = false := by
    rw [h1, hs]
    rfl
  have hmk : (⟨s.data⟩ : String) = s := by cases s; rfl
  simp only [extractCode]
  rw [h1, if_neg (by simp [List.isEmpty_iff]; exact hdne)]
  rw [stripPreambleL_no_nl s.data hnl, hmk, h1]
  rw [fencedComplete_no_bt _ s.data hbt, fencedOpen_no_bt _ s.data hbt]
  simp only [inlineOrRaw]
  rw [hs, inlineCodeMatch_not_bt '{' rest (by decide)]
  exact rawTextStrategy_id s h1 h2 hnl (by rw [h1, hs]; exact looksLikeProse_brace rest)

/-- Claim C8 witness at the concrete object text. -/
theorem claim_C8_witness :
    extractCode "\x7b\"optimized_code\": \"x = 1\"\x7d" =
      some "\x7b\"optimized_code\": \"x = 1\"\x7d" :=
  claim_C8 "\x7b\"optimized_code\": \"x = 1\"\x7d" (by decide) (by decide) (by decide)
    (by decide) (by decide) (by decide)

end Optima
